import Mathlib

/-!
Seven-segment clock / voltmeter firmware (`src/main.cpp`)

A shallow embedding of the firmware in `src/main.cpp`:

* `uint8_t` values are natural numbers below 256, C++ `int` values are integers;
  conversions to `uint8_t` are written out with `castU8`;
* writes to the three output pins and the blocking sleeps are recorded, in program
  order, in a list of `Event`s (explicit state passing of the output trace);
* an array read outside the array bounds is undefined behaviour and is modelled by
  `none`;
* `float` values are rational numbers, and each `float` operation rounds its exact
  result with a rounding function given as a parameter (the identity, or binary32);
* the ticker callback runs to completion between two reads or writes of the main
  loop, so a tick between two reads of the counters is a call of `updateTime` there.
-/

namespace SevenSeg

/-! ## Machine arithmetic -/

/-- C++ `~x` on an `int` (two's complement). -/
def intNot (x : Int) : Int := -x - 1

/-- C++ `static_cast<uint8_t>(x)` of an `int`: reduction modulo 256. -/
def castU8 (x : Int) : Nat := (x % 256).toNat

/-! ## Tables (`main.cpp` lines 15-34) -/

/-- Table `digitPattern[10]` of `main.cpp`: common-anode segment patterns, each entry
written in the source as `static_cast<uint8_t>(~code)`. -/
def digitPattern : List Nat :=
  [ castU8 (intNot 0x3F),
    castU8 (intNot 0x06),
    castU8 (intNot 0x5B),
    castU8 (intNot 0x4F),
    castU8 (intNot 0x66),
    castU8 (intNot 0x6D),
    castU8 (intNot 0x7D),
    castU8 (intNot 0x07),
    castU8 (intNot 0x7F),
    castU8 (intNot 0x6F) ]

/-- Table `digitPos[4]` of `main.cpp`: digit enable masks, left to right. -/
def digitPos : List Nat := [0x01, 0x02, 0x04, 0x08]

/-- The statement `segments &= ~0x80;` of `displayNumber` (line 78): `segments` is
promoted to `int`, and-ed with `~0x80`, and the result is stored back in a `uint8_t`. -/
def clearDecimalPointBit (segments : Nat) : Nat :=
  castU8 (Int.land (segments : Int) (intNot 0x80))

/-- The array read `digitPattern[d]` for an `int` index `d`; `none` when the index is
outside the table (undefined behaviour in C++). -/
def digitPatternAt (d : Int) : Option Nat :=
  if 0 ≤ d then digitPattern.get? d.toNat else none

/-- The segment byte `displayNumber` computes for a digit (lines 73-79): the table
entry, with `segments &= ~0x80` applied when the decimal point is requested.  This is
the `encode(digit, decimalPoint)` of the SegmentEncoder. -/
def encode (digit : Int) (decimalPoint : Bool) : Option Nat :=
  (digitPatternAt digit).map fun pattern =>
    if decimalPoint then clearDecimalPointBit pattern else pattern

/-! ## Reference data used by the specification -/

/-- The canonical common-cathode seven-segment codes of the digits 0..9
(segment a = bit 0, ..., segment g = bit 6, decimal point = bit 7). -/
def canonicalCathode : List Nat :=
  [0x3F, 0x06, 0x5B, 0x4F, 0x66, 0x6D, 0x7D, 0x07, 0x7F, 0x6F]

/-- The 8-bit bitwise complement of a byte. -/
def complement8 (b : Nat) : Nat := b ^^^ 0xFF

/-! ## Output trace -/

/-- The three `DigitalOut` pins of `main.cpp` (lines 4-6). -/
inductive Pin
  | latchPin
  | clockPin
  | dataPin
  deriving DecidableEq, Repr

/-- Observable actions of the firmware, in program order: an assignment `pin = value`
to an output pin, or a blocking `ThisThread::sleep_for` of the given milliseconds. -/
inductive Event
  | write (pin : Pin) (value : Nat)
  | sleep (ms : Nat)
  deriving DecidableEq, Repr

/-! ## Clock (`main.cpp` lines 36-46) -/

/-- The two global counters `volatile int seconds, minutes`. -/
structure ClockState where
  seconds : Int
  minutes : Int
  deriving DecidableEq, Repr

/-- Initial values of the globals: `seconds = 0, minutes = 0`. -/
def ClockState.init : ClockState := { seconds := 0, minutes := 0 }

/-- Function `updateTime` of `main.cpp`, the ticker callback. -/
def updateTime (st : ClockState) : ClockState :=
  let seconds := st.seconds + 1
  if seconds ≥ 60 then
    let minutes := st.minutes + 1
    if minutes ≥ 100 then
      { seconds := 0, minutes := 0 }
    else
      { seconds := 0, minutes := minutes }
  else
    { seconds := seconds, minutes := st.minutes }

/-! ## Shift register bus (`main.cpp` lines 48-61) -/

/-- Body of the loop of `shiftOutMSBFirst` for bit index `i`:
`dataPin = (value & (1 << i)) ? 1 : 0; clockPin = 1; clockPin = 0;`. -/
def shiftBit (value i : Nat) : List Event :=
  [ Event.write Pin.dataPin (if value &&& (1 <<< i) ≠ 0 then 1 else 0),
    Event.write Pin.clockPin 1,
    Event.write Pin.clockPin 0 ]

/-- The loop `for (int i = n - 1; i >= 0; i--)` of `shiftOutMSBFirst`, by recursion on
the number `n` of bit indices still to send. -/
def shiftLoop (value : Nat) : Nat → List Event
  | 0 => []
  | i + 1 => shiftBit value i ++ shiftLoop value i

/-- Function `shiftOutMSBFirst` of `main.cpp`: the loop runs `i = 7, 6, ..., 0`. -/
def shiftOutMSBFirst (value : Nat) : List Event := shiftLoop value 8

/-- Function `writeToShiftRegister` of `main.cpp`. -/
def writeToShiftRegister (segments digit : Nat) : List Event :=
  [Event.write Pin.latchPin 0]
    ++ shiftOutMSBFirst segments
    ++ shiftOutMSBFirst digit
    ++ [Event.write Pin.latchPin 1]

/-! ## Display multiplexer (`main.cpp` lines 64-84) -/

/-- The initialiser of `int digits[4]` in `displayNumber`; `/` and `%` of C++ truncate
towards zero. -/
def digitsOf (number : Int) : List Int :=
  [ (number.tdiv 1000).tmod 10,
    (number.tdiv 100).tmod 10,
    (number.tdiv 10).tmod 10,
    number.tmod 10 ]

/-- Body of the loop of `displayNumber` for position `i` (lines 73-82). -/
def displayDigit (digits : List Int) (showDecimalPoint : Bool) (decimalPosition : Int)
    (i : Nat) : Option (List Event) := do
  let d ← digits.get? i
  let pattern ← digitPatternAt d
  let segments :=
    if showDecimalPoint && decide ((i : Int) = decimalPosition) then
      clearDecimalPointBit pattern
    else
      pattern
  let mask ← digitPos.get? i
  some (writeToShiftRegister segments mask ++ [Event.sleep 2])

/-- The loop `for (int i = ...; i < 4; i++)` of `displayNumber`, by recursion on the
number of positions still to write, starting at position `i`. -/
def displayLoop (digits : List Int) (showDecimalPoint : Bool) (decimalPosition : Int) :
    Nat → Nat → Option (List Event)
  | 0, _ => some []
  | n + 1, i => do
    let frame ← displayDigit digits showDecimalPoint decimalPosition i
    let rest ← displayLoop digits showDecimalPoint decimalPosition n (i + 1)
    some (frame ++ rest)

/-- Function `displayNumber` of `main.cpp`: the trace it emits, or `none` when a digit
indexes outside `digitPattern`. -/
def displayNumber (number : Int) (showDecimalPoint : Bool) (decimalPosition : Int) :
    Option (List Event) :=
  displayLoop (digitsOf number) showDecimalPoint decimalPosition 4 0

/-! ## Main loop (`main.cpp` lines 100-122) -/

/-- Lines 102-105 of `main`, the reset check.  `s1` is the level read from the reset
button pin (active low: `false` is pressed).  Returns the clock state after the check
and the emitted trace (the 200 ms debounce sleep). -/
def resetCheck (st : ClockState) (s1 : Bool) : ClockState × List Event :=
  if !s1 then
    ({ seconds := 0, minutes := 0 }, [Event.sleep 200])
  else
    (st, [])

/-- Lines 108-121 of `main`, mode selection and rendering.  `s3` is the level read from
the mode button pin (active low), and `voltageValue` is the `int` computed from the
analog sample on lines 110-113. -/
def renderPass (st : ClockState) (s3 : Bool) (voltageValue : Int) : Option (List Event) :=
  if !s3 then
    displayNumber voltageValue true 0
  else
    let timeValue := st.minutes * 100 + st.seconds
    displayNumber timeValue true 1

/-- One pass of the `while(1)` loop of `main`, with no tick in between: the reset
check, then the rendering.  Returns the new clock state and the emitted trace. -/
def mainLoopIteration (st : ClockState) (s1 s3 : Bool) (voltageValue : Int) :
    Option (ClockState × List Event) :=
  let afterReset := resetCheck st s1
  (renderPass afterReset.1 s3 voltageValue).map fun t => (afterReset.1, afterReset.2 ++ t)

/-! ## Voltage conversion (`main.cpp` lines 110-113)

The source computes in `float`.  Each `float` operation, and the literal `3.3f`, gives
the exact result rounded by a function `rnd`, a parameter here: `rnd = id` is exact
rational arithmetic, `rnd = roundBinary32` is IEEE 754 single precision. -/

/-- The integer nearest to `x`, the even one of the two when `x` is half-way. -/
def roundHalfEven (x : ℚ) : Int :=
  if x - ⌊x⌋ < 1 / 2 then ⌊x⌋
  else if 1 / 2 < x - ⌊x⌋ then ⌊x⌋ + 1
  else if ⌊x⌋ % 2 = 0 then ⌊x⌋ else ⌊x⌋ + 1

/-- IEEE 754 binary32 rounding (to nearest, ties to even) of a non-negative number:
the nearest multiple of `2 ^ (e - 23)`, where `2 ^ e ≤ x < 2 ^ (e + 1)` (24-bit
significand).  Exact for the normal range of binary32, which holds every non-zero
value of this program (they lie between `2 ^ (-17)` and `2 ^ 12`); the program has no
negative value. -/
def roundBinary32 (x : ℚ) : ℚ :=
  if x ≤ 0 then 0
  else (roundHalfEven (x / (2 : ℚ) ^ (Int.log 2 x - 23)) : ℚ) * (2 : ℚ) ^ (Int.log 2 x - 23)

/-- C++ conversion `(int)x` of a floating-point value: truncation towards zero. -/
def truncToInt (x : ℚ) : Int := if 0 ≤ x then ⌊x⌋ else ⌈x⌉

/-- The factor `... * 3.3f` of line 110, applied to the normalized sample
`read_u16() / 65535.0f`. -/
def voltageOfNormalized (rnd : ℚ → ℚ) (normalized : ℚ) : ℚ :=
  rnd (normalized * rnd (33 / 10))

/-- Line 110: `float voltage = potentiometer.read_u16() / 65535.0f * 3.3f;`, where
`raw` is the value returned by `read_u16()`. -/
def sampleVoltage (rnd : ℚ → ℚ) (raw : Nat) : ℚ :=
  voltageOfNormalized rnd (rnd ((raw : ℚ) / 65535))

/-- Line 113: `int voltageValue = (int)(voltage * 1000);`. -/
def voltageValueOf (rnd : ℚ → ℚ) (voltage : ℚ) : Int :=
  truncToInt (rnd (voltage * 1000))

/-- Lines 110-113: the `int` handed to `displayNumber` for the sample `raw`. -/
def sampleVoltageValue (rnd : ℚ → ℚ) (raw : Nat) : Int :=
  voltageValueOf rnd (sampleVoltage rnd raw)

/-- Line 119 of `main`, `int timeValue = minutes * 100 + seconds;`, when `ticks` runs
of the ticker callback `updateTime` fall between the two reads of the volatile
counters.  C++ does not fix the order of the two reads: `minutesFirst` tells which
counter is read first. -/
def timeValueWithTicks (minutesFirst : Bool) (st : ClockState) (ticks : Nat) : Int :=
  if minutesFirst then
    st.minutes * 100 + (updateTime^[ticks] st).seconds
  else
    (updateTime^[ticks] st).minutes * 100 + st.seconds

/-! ## Observers used to state the properties -/

/-- The bounds of the clock: `0 ≤ seconds ≤ 59` and `0 ≤ minutes ≤ 99`. -/
def ClockState.InBounds (st : ClockState) : Prop :=
  0 ≤ st.seconds ∧ st.seconds ≤ 59 ∧ 0 ≤ st.minutes ∧ st.minutes ≤ 99

instance (st : ClockState) : Decidable st.InBounds := by
  unfold ClockState.InBounds; infer_instance

/-- States the firmware can be in: the initial one, and those obtained by a tick of
`updateTime` or by the reset check of the main loop (the only two places that write
the counters), whatever the level of the reset button.  The reset `seconds = minutes = 0`
is two separate writes to volatile counters, between which a tick may fire, so each of
the two writes is a step of its own as well. -/
inductive Reachable : ClockState → Prop
  | init : Reachable ClockState.init
  | tick {st : ClockState} : Reachable st → Reachable (updateTime st)
  | loopPass {st : ClockState} (s1 : Bool) : Reachable st → Reachable (resetCheck st s1).1
  | writeMinutes {st : ClockState} :
      Reachable st → Reachable { seconds := st.seconds, minutes := 0 }
  | writeSeconds {st : ClockState} :
      Reachable st → Reachable { seconds := 0, minutes := st.minutes }

/-- Three events per shifted bit: the data write, then the clock pulse (1 then 0). -/
def pulseTrain (bits : List Nat) : List Event :=
  bits.flatMap fun b =>
    [Event.write Pin.dataPin b, Event.write Pin.clockPin 1, Event.write Pin.clockPin 0]

/-- Bits 7, 6, ..., 0 of a number. -/
def msbFirstBits (v : Nat) : List Nat :=
  [7, 6, 5, 4, 3, 2, 1, 0].map fun i => v / 2 ^ i % 2

/-- Is the event a write to the latch pin? -/
def Event.isLatchWrite : Event → Bool
  | Event.write Pin.latchPin _ => true
  | _ => false

/-- Is the event a write to the clock pin? -/
def Event.isClockWrite : Event → Bool
  | Event.write Pin.clockPin _ => true
  | _ => false

/-- Total time slept in a trace, in milliseconds. -/
def totalSleep : List Event → Nat
  | [] => 0
  | Event.sleep ms :: rest => ms + totalSleep rest
  | Event.write _ _ :: rest => totalSleep rest

/-- The data-line values present at the rising edges of the clock line, given the
current levels of the clock and data lines. -/
def sampledBits (clock data : Nat) : List Event → List Nat
  | [] => []
  | Event.write Pin.dataPin v :: rest => sampledBits clock v rest
  | Event.write Pin.clockPin v :: rest =>
      if clock = 0 ∧ v ≠ 0 then data :: sampledBits v data rest
      else sampledBits v data rest
  | _ :: rest => sampledBits clock data rest

/-- A list of bits read as a big-endian binary number. -/
def ofBitsBE (bits : List Nat) : Nat := bits.foldl (fun acc b => 2 * acc + b) 0

/-- The receiving side of the bus, two chained 8-bit serial-in/parallel-out registers:
the levels of the three lines and `shifted`, the bits clocked in so far read as a
binary number (the latest bit is the least significant). -/
structure Bus where
  latch : Nat
  clock : Nat
  data : Nat
  shifted : Nat
  deriving DecidableEq, Repr

/-- The bus as `main` leaves it before the loop (all three lines low). -/
def Bus.idle : Bus := { latch := 0, clock := 0, data := 0, shifted := 0 }

/-- Effect of one event on the receiving side.  A rising clock edge shifts the data
level in; a rising latch edge copies the last 16 bits to the outputs, returned as the
pair (byte sent first, byte sent second). -/
def Bus.step (b : Bus) : Event → Bus × List (Nat × Nat)
  | Event.write Pin.dataPin v => ({ b with data := v }, [])
  | Event.write Pin.clockPin v =>
      if b.clock = 0 ∧ v ≠ 0 then
        ({ b with clock := v, shifted := 2 * b.shifted + b.data }, [])
      else
        ({ b with clock := v }, [])
  | Event.write Pin.latchPin v =>
      ({ b with latch := v },
        if b.latch = 0 ∧ v ≠ 0 then [(b.shifted / 256 % 256, b.shifted % 256)] else [])
  | Event.sleep _ => (b, [])

/-- The frames latched to the register outputs while a trace is played. -/
def latchedFrames (b : Bus) : List Event → List (Nat × Nat)
  | [] => []
  | e :: rest => (b.step e).2 ++ latchedFrames (b.step e).1 rest

/-! ## Auxiliary facts -/

/-- A pass of the main loop changes the clock only through its reset check. -/
theorem mainLoopIteration_state (st st1 : ClockState) (s1 s3 : Bool) (voltageValue : Int)
    (t : List Event) (h : mainLoopIteration st s1 s3 voltageValue = some (st1, t)) :
    st1 = (resetCheck st s1).1 := by
  unfold mainLoopIteration at h
  simp only [Option.map_eq_some', Prod.mk.injEq] at h
  obtain ⟨_, _, h2, _⟩ := h
  exact h2.symm

/-- Storing `segments & ~0x80` in a byte keeps exactly the seven low bits. -/
theorem clearDecimalPointBit_eq_mod (segments : Nat) :
    clearDecimalPointBit segments = segments % 128 := by
  have h : Int.land (segments : Int) (intNot 0x80) = ((Nat.ldiff segments 128 : Nat) : Int) :=
    rfl
  unfold clearDecimalPointBit castU8
  rw [h]
  have h256 : (((Nat.ldiff segments 128 : Nat) : Int) % 256).toNat
      = Nat.ldiff segments 128 % 256 := by omega
  rw [h256]
  apply Nat.eq_of_testBit_eq
  intro j
  have e256 : (256 : Nat) = 2 ^ 8 := by norm_num
  have e128 : (128 : Nat) = 2 ^ 7 := by norm_num
  rw [e256, Nat.testBit_mod_two_pow, Nat.testBit_ldiff, e128, Nat.testBit_mod_two_pow,
    Nat.testBit_two_pow]
  by_cases h7 : 7 = j
  · subst h7; simp
  · by_cases h8 : j < 8
    · have hj : j < 7 := by omega
      simp [h7, h8, hj]
    · have hj : ¬ j < 7 := by omega
      simp [h8, hj]

/-- The data level `(value & (1 << i)) ? 1 : 0` is bit `i` of `value`. -/
theorem dataLevel_eq_bit (value i : Nat) :
    (if value &&& (1 <<< i) ≠ 0 then 1 else 0) = value / 2 ^ i % 2 := by
  rw [Nat.one_shiftLeft]
  have hbit : (value &&& 2 ^ i ≠ 0) ↔ value.testBit i = true := by
    constructor
    · intro hne
      by_contra hb
      apply hne
      apply Nat.eq_of_testBit_eq
      intro j
      rw [Nat.testBit_and, Nat.testBit_two_pow, Nat.zero_testBit]
      by_cases hij : i = j
      · subst hij; simp [hb]
      · simp [hij]
    · intro hb hzero
      have h2 : (value &&& 2 ^ i).testBit i = true := by
        rw [Nat.testBit_and, Nat.testBit_two_pow, hb]; simp
      rw [hzero, Nat.zero_testBit] at h2
      cases h2
  rw [Nat.testBit_to_div_mod] at hbit
  by_cases h1 : value / 2 ^ i % 2 = 1
  · have : value &&& 2 ^ i ≠ 0 := hbit.mpr (by simp [h1])
    rw [if_pos this, h1]
  · have : ¬ (value &&& 2 ^ i ≠ 0) := fun h => h1 (by simpa using hbit.mp h)
    rw [if_neg this]
    omega

/-- The trace of `shiftOutMSBFirst`: one data write and one clock pulse per bit, from
bit 7 down to bit 0. -/
theorem shiftOutMSBFirst_eq_pulseTrain (value : Nat) :
    shiftOutMSBFirst value = pulseTrain (msbFirstBits value) := by
  simp only [shiftOutMSBFirst, shiftLoop, shiftBit, dataLevel_eq_bit, pulseTrain,
    msbFirstBits, List.map_cons, List.map_nil, List.flatMap_cons, List.flatMap_nil,
    List.append_nil, List.cons_append, List.nil_append]

/-- The bits clocked out for a value, sampled at the rising clock edges. -/
theorem sampledBits_shiftOut (data value : Nat) (rest : List Event) :
    sampledBits 0 data (shiftOutMSBFirst value ++ rest)
      = msbFirstBits value ++ sampledBits 0 (value / 2 ^ 0 % 2) rest := by
  rw [shiftOutMSBFirst_eq_pulseTrain]
  simp [pulseTrain, msbFirstBits, sampledBits]

/-- Writes to the latch line are not clock edges. -/
theorem sampledBits_latch (clock data v : Nat) (rest : List Event) :
    sampledBits clock data (Event.write Pin.latchPin v :: rest)
      = sampledBits clock data rest :=
  rfl

/-- Reading bits 7..0 of `v` big-endian, after an accumulated prefix `acc`. -/
theorem foldl_msbFirstBits (acc v : Nat) :
    (msbFirstBits v).foldl (fun acc b => 2 * acc + b) acc = 256 * acc + v % 256 := by
  have e : msbFirstBits v = [v / 128 % 2, v / 64 % 2, v / 32 % 2, v / 16 % 2, v / 8 % 2,
      v / 4 % 2, v / 2 % 2, v % 2] := by
    simp [msbFirstBits]
  rw [e]
  simp only [List.foldl_cons, List.foldl_nil]
  omega

/-- One data write followed by one clock pulse shifts one bit in. -/
theorem latchedFrames_pulse (b : Bus) (hc : b.clock = 0) (bit : Nat) (rest : List Event) :
    latchedFrames b
        (Event.write Pin.dataPin bit :: Event.write Pin.clockPin 1
          :: Event.write Pin.clockPin 0 :: rest)
      = latchedFrames
          { latch := b.latch, clock := 0, data := bit, shifted := 2 * b.shifted + bit }
          rest := by
  simp [latchedFrames, Bus.step, hc]

/-- Playing `shiftOutMSBFirst value` on the receiving side shifts the eight bits of
`value` in, and leaves the clock low. -/
theorem latchedFrames_shiftOut (b : Bus) (hc : b.clock = 0) (value : Nat)
    (rest : List Event) :
    latchedFrames b (shiftOutMSBFirst value ++ rest)
      = latchedFrames
          { latch := b.latch, clock := 0, data := value / 2 ^ 0 % 2,
            shifted := 256 * b.shifted + value % 256 } rest := by
  rw [shiftOutMSBFirst_eq_pulseTrain]
  simp only [pulseTrain, msbFirstBits, List.map_cons, List.map_nil, List.flatMap_cons,
    List.flatMap_nil, List.append_nil, List.cons_append, List.nil_append]
  rw [latchedFrames_pulse b hc, latchedFrames_pulse _ rfl, latchedFrames_pulse _ rfl,
    latchedFrames_pulse _ rfl, latchedFrames_pulse _ rfl, latchedFrames_pulse _ rfl,
    latchedFrames_pulse _ rfl, latchedFrames_pulse _ rfl]
  congr 2
  norm_num
  omega

/-- Playing one `writeToShiftRegister` frame latches the two bytes sent, and leaves
the clock low. -/
theorem latchedFrames_frame (b : Bus) (hc : b.clock = 0) (segments digit : Nat)
    (hs : segments < 256) (hd : digit < 256) (rest : List Event) :
    latchedFrames b (writeToShiftRegister segments digit ++ rest)
      = (segments, digit) :: latchedFrames
          { latch := 1, clock := 0, data := digit / 2 ^ 0 % 2,
            shifted := 256 * (256 * b.shifted + segments % 256) + digit % 256 } rest := by
  have hcons : ∀ (b0 : Bus) (e : Event) (l : List Event),
      latchedFrames b0 (e :: l) = (b0.step e).2 ++ latchedFrames (b0.step e).1 l :=
    fun _ _ _ => rfl
  unfold writeToShiftRegister
  simp only [List.append_assoc, List.singleton_append, List.cons_append]
  rw [hcons]
  simp only [Bus.step, List.nil_append, ne_eq, not_true_eq_false, and_false, if_false]
  rw [latchedFrames_shiftOut
      { latch := 0, clock := b.clock, data := b.data, shifted := b.shifted } hc,
    latchedFrames_shiftOut _ rfl, hcons]
  simp only [Bus.step, List.nil_append, ne_eq, one_ne_zero, not_false_eq_true, true_and,
    and_self, if_true, List.singleton_append, zero_ne_one, List.cons.injEq, Prod.mk.injEq]
  refine ⟨⟨?_, ?_⟩, trivial⟩ <;> omega

/-- Sleeping does not change the receiving side. -/
theorem latchedFrames_sleep (b : Bus) (ms : Nat) (rest : List Event) :
    latchedFrames b (Event.sleep ms :: rest) = latchedFrames b rest := by
  simp [latchedFrames, Bus.step]

/-- Closed form of `n` ticks from a state within the bounds. -/
theorem updateTime_iterate (st : ClockState) (h : st.InBounds) (n : Nat) :
    updateTime^[n] st =
      { seconds := (60 * st.minutes + st.seconds + n) % 60,
        minutes := (60 * st.minutes + st.seconds + n) / 60 % 100 } := by
  obtain ⟨h1, h2, h3, h4⟩ := h
  induction n with
  | zero =>
    cases st with
    | mk s m =>
      simp only [Function.iterate_zero, id_eq, ClockState.mk.injEq] at *
      constructor <;> omega
  | succ k ih =>
    rw [Function.iterate_succ_apply', ih]
    unfold updateTime
    simp only [ge_iff_le]
    split_ifs <;> simp only [ClockState.mk.injEq] <;> constructor <;> push_cast <;> omega

/-- One tick keeps the clock within its bounds. -/
theorem updateTime_inBounds (st : ClockState) (h : st.InBounds) :
    (updateTime st).InBounds := by
  obtain ⟨h1, h2, h3, h4⟩ := h
  unfold updateTime ClockState.InBounds
  simp only [ge_iff_le]
  split_ifs <;> (refine ⟨?_, ?_, ?_, ?_⟩ <;> simp only <;> omega)

/-- For `v ≥ 0` the digits computed by `displayNumber` are the four decimal digits of
`v mod 10000`, thousands first. -/
theorem digitsOf_nonneg (v : Int) (hv : 0 ≤ v) :
    digitsOf v
      = [v % 10000 / 1000, v % 10000 / 100 % 10, v % 10000 / 10 % 10, v % 10000 % 10] := by
  have h1 : v.tdiv 1000 = v / 1000 := Int.tdiv_eq_ediv hv (by norm_num)
  have h2 : v.tdiv 100 = v / 100 := Int.tdiv_eq_ediv hv (by norm_num)
  have h3 : v.tdiv 10 = v / 10 := Int.tdiv_eq_ediv hv (by norm_num)
  unfold digitsOf
  rw [h1, h2, h3, Int.tmod_eq_emod (by omega) (by norm_num),
    Int.tmod_eq_emod (by omega) (by norm_num), Int.tmod_eq_emod (by omega) (by norm_num),
    Int.tmod_eq_emod hv (by norm_num)]
  simp only [List.cons.injEq, and_true]
  refine ⟨?_, ?_, ?_, ?_⟩ <;> omega

/-- A digit in 0..9 has a segment byte; it is a byte, and its bit 7 is clear exactly
when the decimal point is requested. -/
theorem encode_digit (d : Int) (h0 : 0 ≤ d) (h9 : d ≤ 9) (point : Bool) :
    ∃ seg, encode d point = some seg ∧ seg < 256 ∧ seg.testBit 7 = !point := by
  have tbl : digitPattern = [0xC0, 0xF9, 0xA4, 0xB0, 0x99, 0x92, 0x82, 0xF8, 0x80, 0x90] := by
    decide
  interval_cases d <;> cases point <;>
    simp only [encode, digitPatternAt, tbl, clearDecimalPointBit_eq_mod] <;>
    exact ⟨_, rfl, by decide, by decide⟩

/-- One pass of the loop body of `displayNumber`, in terms of `encode`. -/
theorem displayDigit_of (digits : List Int) (showDecimalPoint : Bool) (decimalPosition : Int)
    (i : Nat) (d : Int) (mask seg : Nat) (hd : digits.get? i = some d)
    (hm : digitPos.get? i = some mask)
    (he : encode d (showDecimalPoint && decide ((i : Int) = decimalPosition)) = some seg) :
    displayDigit digits showDecimalPoint decimalPosition i
      = some (writeToShiftRegister seg mask ++ [Event.sleep 2]) := by
  unfold displayDigit
  unfold encode at he
  cases hp : digitPatternAt d with
  | none => rw [hp] at he; cases he
  | some p =>
    rw [hp] at he
    simp only [Option.map_some', Option.some.injEq] at he
    simp only [hd, hm, hp, Option.bind_eq_bind, Option.some_bind, he]

/-- The four loop passes of `displayNumber`, in order. -/
theorem displayNumber_of (number : Int) (showDecimalPoint : Bool) (decimalPosition : Int)
    (f0 f1 f2 f3 : List Event)
    (h0 : displayDigit (digitsOf number) showDecimalPoint decimalPosition 0 = some f0)
    (h1 : displayDigit (digitsOf number) showDecimalPoint decimalPosition 1 = some f1)
    (h2 : displayDigit (digitsOf number) showDecimalPoint decimalPosition 2 = some f2)
    (h3 : displayDigit (digitsOf number) showDecimalPoint decimalPosition 3 = some f3) :
    displayNumber number showDecimalPoint decimalPosition
      = some (f0 ++ (f1 ++ (f2 ++ f3))) := by
  unfold displayNumber
  simp only [displayLoop, Nat.zero_add, Nat.reduceAdd, h0, h1, h2, h3, Option.bind_eq_bind,
    Option.some_bind, List.append_nil]

/-- What `displayNumber` does for a non-negative number: four frames, the `i`-th with
the segment byte of the `i`-th digit of `v mod 10000` and the mask of position `i`,
each followed by a 2 ms sleep. -/
theorem displayNumber_nonneg (v : Int) (hv : 0 ≤ v) (showDecimalPoint : Bool)
    (decimalPosition : Int) :
    ∃ seg0 seg1 seg2 seg3 : Nat,
      encode (v % 10000 / 1000) (showDecimalPoint && decide ((0 : Int) = decimalPosition))
        = some seg0 ∧
      encode (v % 10000 / 100 % 10) (showDecimalPoint && decide ((1 : Int) = decimalPosition))
        = some seg1 ∧
      encode (v % 10000 / 10 % 10) (showDecimalPoint && decide ((2 : Int) = decimalPosition))
        = some seg2 ∧
      encode (v % 10000 % 10) (showDecimalPoint && decide ((3 : Int) = decimalPosition))
        = some seg3 ∧
      (seg0 < 256 ∧ seg1 < 256 ∧ seg2 < 256 ∧ seg3 < 256) ∧
      seg0.testBit 7 = !(showDecimalPoint && decide ((0 : Int) = decimalPosition)) ∧
      seg1.testBit 7 = !(showDecimalPoint && decide ((1 : Int) = decimalPosition)) ∧
      seg2.testBit 7 = !(showDecimalPoint && decide ((2 : Int) = decimalPosition)) ∧
      seg3.testBit 7 = !(showDecimalPoint && decide ((3 : Int) = decimalPosition)) ∧
      displayNumber v showDecimalPoint decimalPosition
        = some (writeToShiftRegister seg0 0x01 ++ [Event.sleep 2]
            ++ (writeToShiftRegister seg1 0x02 ++ [Event.sleep 2]
            ++ (writeToShiftRegister seg2 0x04 ++ [Event.sleep 2]
            ++ (writeToShiftRegister seg3 0x08 ++ [Event.sleep 2])))) := by
  obtain ⟨seg0, e0, b0, t0⟩ := encode_digit (v % 10000 / 1000) (by omega) (by omega)
    (showDecimalPoint && decide ((0 : Int) = decimalPosition))
  obtain ⟨seg1, e1, b1, t1⟩ := encode_digit (v % 10000 / 100 % 10) (by omega) (by omega)
    (showDecimalPoint && decide ((1 : Int) = decimalPosition))
  obtain ⟨seg2, e2, b2, t2⟩ := encode_digit (v % 10000 / 10 % 10) (by omega) (by omega)
    (showDecimalPoint && decide ((2 : Int) = decimalPosition))
  obtain ⟨seg3, e3, b3, t3⟩ := encode_digit (v % 10000 % 10) (by omega) (by omega)
    (showDecimalPoint && decide ((3 : Int) = decimalPosition))
  refine ⟨seg0, seg1, seg2, seg3, e0, e1, e2, e3, ⟨b0, b1, b2, b3⟩, t0, t1, t2, t3, ?_⟩
  apply displayNumber_of <;> rw [digitsOf_nonneg v hv]
  · exact displayDigit_of _ _ _ 0 _ _ _ rfl rfl e0
  · exact displayDigit_of _ _ _ 1 _ _ _ rfl rfl e1
  · exact displayDigit_of _ _ _ 2 _ _ _ rfl rfl e2
  · exact displayDigit_of _ _ _ 3 _ _ _ rfl rfl e3

/-- Playing the four frames of one `displayNumber` call latches four pairs. -/
theorem latchedFrames_four (b : Bus) (hc : b.clock = 0) (s0 s1 s2 s3 m0 m1 m2 m3 : Nat)
    (hs : s0 < 256 ∧ s1 < 256 ∧ s2 < 256 ∧ s3 < 256)
    (hm : m0 < 256 ∧ m1 < 256 ∧ m2 < 256 ∧ m3 < 256) :
    latchedFrames b
        (writeToShiftRegister s0 m0 ++ [Event.sleep 2]
          ++ (writeToShiftRegister s1 m1 ++ [Event.sleep 2]
          ++ (writeToShiftRegister s2 m2 ++ [Event.sleep 2]
          ++ (writeToShiftRegister s3 m3 ++ [Event.sleep 2]))))
      = [(s0, m0), (s1, m1), (s2, m2), (s3, m3)] := by
  simp only [List.append_assoc, List.singleton_append]
  rw [latchedFrames_frame b hc s0 m0 hs.1 hm.1, latchedFrames_sleep,
    latchedFrames_frame _ rfl s1 m1 hs.2.1 hm.2.1, latchedFrames_sleep,
    latchedFrames_frame _ rfl s2 m2 hs.2.2.1 hm.2.2.1, latchedFrames_sleep,
    latchedFrames_frame _ rfl s3 m3 hs.2.2.2 hm.2.2.2, latchedFrames_sleep]
  rfl

/-- The time slept in a concatenation of traces. -/
theorem totalSleep_append (t1 t2 : List Event) :
    totalSleep (t1 ++ t2) = totalSleep t1 + totalSleep t2 := by
  induction t1 with
  | nil => simp [totalSleep]
  | cons e rest ih =>
    cases e with
    | write pin value => simpa [totalSleep] using ih
    | sleep ms => simp [totalSleep, ih, Nat.add_assoc]

/-- A `writeToShiftRegister` call does not sleep. -/
theorem totalSleep_writeToShiftRegister (segments digit : Nat) :
    totalSleep (writeToShiftRegister segments digit) = 0 :=
  rfl

/-- In exact arithmetic the conversion of lines 110-113 is `raw * 3300 / 65535`,
rounded down. -/
theorem sampleVoltageValue_exact (raw : Nat) :
    sampleVoltageValue id raw = (raw * 3300 : Int) / 65535 := by
  simp only [sampleVoltageValue, voltageValueOf, sampleVoltage, voltageOfNormalized,
    truncToInt, id]
  have h : (0 : ℚ) ≤ (raw : ℚ) / 65535 * (33 / 10) * 1000 := by positivity
  rw [if_pos h]
  have e : (raw : ℚ) / 65535 * (33 / 10) * 1000
      = ((raw * 3300 : Int) : ℚ) / ((65535 : Nat) : ℚ) := by
    push_cast; ring
  rw [e, Rat.floor_intCast_div_natCast]
  norm_num

/-- The three cases of `roundHalfEven`. -/
theorem roundHalfEven_bounds (x : ℚ) :
    (⌊x⌋ ≤ roundHalfEven x ∧ roundHalfEven x ≤ ⌊x⌋ + 1) ∧
    (x - ⌊x⌋ < 1 / 2 → roundHalfEven x = ⌊x⌋) ∧
    (1 / 2 < x - ⌊x⌋ → roundHalfEven x = ⌊x⌋ + 1) := by
  unfold roundHalfEven
  refine ⟨?_, ?_, ?_⟩
  · split_ifs <;> constructor <;> omega
  · intro h; rw [if_pos h]
  · intro h; rw [if_neg (by linarith), if_pos h]

/-- An integer rounds to itself. -/
theorem roundHalfEven_intCast (n : Int) : roundHalfEven (n : ℚ) = n := by
  have h := (roundHalfEven_bounds (n : ℚ)).2.1
  rw [Int.floor_intCast] at h
  exact h (by norm_num)

/-- Rounding to the nearest integer is monotone. -/
theorem roundHalfEven_mono {x y : ℚ} (h : x ≤ y) : roundHalfEven x ≤ roundHalfEven y := by
  have hx := roundHalfEven_bounds x
  have hy := roundHalfEven_bounds y
  have hf : ⌊x⌋ ≤ ⌊y⌋ := Int.floor_mono h
  rcases lt_or_eq_of_le hf with hlt | heq
  · omega
  · -- same floor
    by_cases hx1 : x - ⌊x⌋ < 1 / 2
    · rw [hx.2.1 hx1]; rw [heq]; exact hy.1.1
    · by_cases hy2 : 1 / 2 < y - ⌊y⌋
      · rw [hy.2.2 hy2]; rw [← heq]; exact hx.1.2
      · -- x - f ≥ 1/2 and y - f ≤ 1/2 and x ≤ y so x = y
        have hxy : x = y := by
          have e : (⌊x⌋ : ℚ) = (⌊y⌋ : ℚ) := by rw [heq]
          linarith
        rw [hxy]

/-- A number within one half of an integer rounds to it. -/
theorem roundHalfEven_near (x : ℚ) (n : Int) (h1 : (n : ℚ) - 1 / 2 < x) (h2 : x < n + 1 / 2) :
    roundHalfEven x = n := by
  have hb := roundHalfEven_bounds x
  by_cases hn : (n : ℚ) ≤ x
  · have hf : ⌊x⌋ = n := by
      rw [Int.floor_eq_iff]; constructor <;> linarith
    rw [hb.2.1 (by rw [hf]; linarith), hf]
  · have hf : ⌊x⌋ = n - 1 := by
      rw [Int.floor_eq_iff]; push_cast; constructor <;> linarith
    rw [hb.2.2 (by rw [hf]; push_cast; linarith), hf]; omega

/-- The binade of a positive number. -/
theorem log_two_eq {x : ℚ} {e : Int} (hlo : (2 : ℚ) ^ e ≤ x) (hhi : x < (2 : ℚ) ^ (e + 1)) :
    Int.log 2 x = e := by
  have hx : 0 < x := lt_of_lt_of_le (zpow_pos (by norm_num) e) hlo
  apply le_antisymm
  · have := (Int.lt_zpow_iff_log_lt (b := 2) (by norm_num) hx (x := e + 1)).mp
      (by exact_mod_cast hhi)
    omega
  · exact (Int.zpow_le_iff_le_log (b := 2) (by norm_num) hx).mp (by exact_mod_cast hlo)

/-- Binary32 rounding in a known binade. -/
theorem roundBinary32_of_binade {x : ℚ} {e : Int} (hlo : (2 : ℚ) ^ e ≤ x)
    (hhi : x < (2 : ℚ) ^ (e + 1)) :
    roundBinary32 x = (roundHalfEven (x / (2 : ℚ) ^ (e - 23)) : ℚ) * (2 : ℚ) ^ (e - 23) := by
  have hx : 0 < x := lt_of_lt_of_le (zpow_pos (by norm_num) e) hlo
  unfold roundBinary32
  rw [if_neg (not_le.mpr hx), log_two_eq hlo hhi]

/-- Zero is a binary32 value. -/
theorem roundBinary32_zero : roundBinary32 0 = 0 := by
  unfold roundBinary32; rw [if_pos (le_refl _)]

/-- Powers of two around the unit in the last place of a binade. -/
theorem zpow_split (e : Int) :
    (2 : ℚ) ^ e = 8388608 * (2 : ℚ) ^ (e - 23) ∧
    (2 : ℚ) ^ (e + 1) = 16777216 * (2 : ℚ) ^ (e - 23) := by
  have e1 : (2 : ℚ) ^ e = (2 : ℚ) ^ (23 : Int) * (2 : ℚ) ^ (e - 23) := by
    rw [← zpow_add₀ (by norm_num)]; congr 1; omega
  have e2 : (2 : ℚ) ^ (e + 1) = (2 : ℚ) ^ (24 : Int) * (2 : ℚ) ^ (e - 23) := by
    rw [← zpow_add₀ (by norm_num)]; congr 1; omega
  constructor
  · rw [e1]; norm_num
  · rw [e2]; norm_num

/-- The significand of a number in binade `e` lies between `2 ^ 23` and `2 ^ 24`. -/
theorem scaled_bounds {x : ℚ} {e : Int} (hlo : (2 : ℚ) ^ e ≤ x) (hhi : x < (2 : ℚ) ^ (e + 1)) :
    ((8388608 : Int) : ℚ) ≤ x / (2 : ℚ) ^ (e - 23) ∧
    x / (2 : ℚ) ^ (e - 23) ≤ ((16777216 : Int) : ℚ) := by
  have hu : (0 : ℚ) < (2 : ℚ) ^ (e - 23) := zpow_pos (by norm_num) _
  obtain ⟨e1, e2⟩ := zpow_split e
  constructor
  · rw [le_div_iff₀ hu]; push_cast; rw [← e1]; exact hlo
  · rw [div_le_iff₀ hu]; push_cast; rw [← e2]; exact le_of_lt hhi

/-- Binary32 rounding stays within the closed binade. -/
theorem roundBinary32_bounds {x : ℚ} {e : Int} (hlo : (2 : ℚ) ^ e ≤ x)
    (hhi : x < (2 : ℚ) ^ (e + 1)) :
    (2 : ℚ) ^ e ≤ roundBinary32 x ∧ roundBinary32 x ≤ (2 : ℚ) ^ (e + 1) := by
  have hu : (0 : ℚ) < (2 : ℚ) ^ (e - 23) := zpow_pos (by norm_num) _
  obtain ⟨e1, e2⟩ := zpow_split e
  obtain ⟨s1, s2⟩ := scaled_bounds hlo hhi
  have r1 := roundHalfEven_mono s1
  have r2 := roundHalfEven_mono s2
  rw [roundHalfEven_intCast] at r1 r2
  rw [roundBinary32_of_binade hlo hhi, e1, e2]
  constructor
  · apply mul_le_mul_of_nonneg_right _ (le_of_lt hu)
    exact_mod_cast r1
  · apply mul_le_mul_of_nonneg_right _ (le_of_lt hu)
    exact_mod_cast r2

/-- Binary32 rounding is monotone on the non-negative numbers. -/
theorem roundBinary32_mono {x y : ℚ} (hx : 0 ≤ x) (hxy : x ≤ y) :
    roundBinary32 x ≤ roundBinary32 y := by
  rcases eq_or_lt_of_le hx with h0 | hpos
  · rw [← h0, roundBinary32_zero]
    rcases eq_or_lt_of_le (le_trans hx hxy) with hy0 | hypos
    · rw [← hy0, roundBinary32_zero]
    · have hlo := Int.zpow_log_le_self (b := 2) (by norm_num) hypos
      have hhi := Int.lt_zpow_succ_log_self (b := 2) (by norm_num) y
      have hb := roundBinary32_bounds (x := y) (e := Int.log 2 y) (by exact_mod_cast hlo)
        (by exact_mod_cast hhi)
      exact le_trans (le_of_lt (zpow_pos (by norm_num) _)) hb.1
  · have hypos : 0 < y := lt_of_lt_of_le hpos hxy
    have hxlo : (2 : ℚ) ^ Int.log 2 x ≤ x := by
      exact_mod_cast Int.zpow_log_le_self (b := 2) (by norm_num) hpos
    have hxhi : x < (2 : ℚ) ^ (Int.log 2 x + 1) := by
      exact_mod_cast Int.lt_zpow_succ_log_self (b := 2) (by norm_num) x
    have hylo : (2 : ℚ) ^ Int.log 2 y ≤ y := by
      exact_mod_cast Int.zpow_log_le_self (b := 2) (by norm_num) hypos
    have hyhi : y < (2 : ℚ) ^ (Int.log 2 y + 1) := by
      exact_mod_cast Int.lt_zpow_succ_log_self (b := 2) (by norm_num) y
    have hlog : Int.log 2 x ≤ Int.log 2 y := Int.log_mono_right hpos hxy
    rcases eq_or_lt_of_le hlog with heq | hlt
    · rw [roundBinary32_of_binade hxlo hxhi, roundBinary32_of_binade hylo hyhi, heq]
      have hu : (0 : ℚ) < (2 : ℚ) ^ (Int.log 2 y - 23) := zpow_pos (by norm_num) _
      apply mul_le_mul_of_nonneg_right _ (le_of_lt hu)
      have := roundHalfEven_mono (div_le_div_of_nonneg_right hxy (le_of_lt hu))
      exact_mod_cast this
    · have bx := (roundBinary32_bounds hxlo hxhi).2
      have by1 := (roundBinary32_bounds hylo hyhi).1
      have hpow : (2 : ℚ) ^ (Int.log 2 x + 1) ≤ (2 : ℚ) ^ Int.log 2 y :=
        zpow_le_zpow_right₀ (by norm_num) (by omega)
      exact le_trans bx (le_trans hpow by1)

/-- Binary32 rounding, given the binade and the significand. -/
theorem roundBinary32_eval {x : ℚ} (e m : Int) (hlo : (2 : ℚ) ^ e ≤ x)
    (hhi : x < (2 : ℚ) ^ (e + 1)) (h1 : (m : ℚ) - 1 / 2 < x / (2 : ℚ) ^ (e - 23))
    (h2 : x / (2 : ℚ) ^ (e - 23) < m + 1 / 2) :
    roundBinary32 x = (m : ℚ) * (2 : ℚ) ^ (e - 23) := by
  rw [roundBinary32_of_binade hlo hhi, roundHalfEven_near _ m h1 h2]

/-- The value 1 is a binary32 value. -/
theorem roundBinary32_one : roundBinary32 1 = 1 := by
  rw [roundBinary32_eval 0 8388608] <;> norm_num

/-- The literal `3.3f`. -/
theorem roundBinary32_const : roundBinary32 (33 / 10) = 13841203 / 4194304 := by
  rw [roundBinary32_eval 1 13841203] <;> norm_num

/-- The literal `3.3f` is a binary32 value. -/
theorem roundBinary32_const_idem :
    roundBinary32 (13841203 / 4194304) = 13841203 / 4194304 := by
  rw [roundBinary32_eval 1 13841203] <;> norm_num

/-- The product `3.3f * 1000` rounds to 3300. -/
theorem roundBinary32_top : roundBinary32 (13841203 / 4194304 * 1000) = 3300 := by
  rw [roundBinary32_eval 11 13516800] <;> norm_num

/-- The product `0.5f * 3.3f` is a binary32 value. -/
theorem roundBinary32_half_volt :
    roundBinary32 (1 / 2 * (13841203 / 4194304)) = 13841203 / 8388608 := by
  rw [roundBinary32_eval 0 13841203] <;> norm_num

/-- The product `(0.5f * 3.3f) * 1000` rounds to 1650. -/
theorem roundBinary32_half_value : roundBinary32 (13841203 / 8388608 * 1000) = 1650 := by
  rw [roundBinary32_eval 10 13516800] <;> norm_num

/-- The range of the converted value, for any rounding of the `float` operations that
is monotone on the non-negative numbers, leaves 0, 1 and the literal `3.3f` unchanged,
and rounds `3.3f * 1000` to less than 3301. -/
theorem sampleVoltageValue_range (rnd : ℚ → ℚ)
    (hmono : ∀ x y : ℚ, 0 ≤ x → x ≤ y → rnd x ≤ rnd y) (h0 : rnd 0 = 0)
    (h1 : rnd 1 = 1) (hidem : rnd (rnd (33 / 10)) = rnd (33 / 10))
    (htop : rnd (rnd (33 / 10) * 1000) < 3301) (raw : Nat) (hraw : raw ≤ 65535) :
    0 ≤ sampleVoltageValue rnd raw ∧ sampleVoltageValue rnd raw ≤ 3300 := by
  have hnn : ∀ x : ℚ, 0 ≤ x → 0 ≤ rnd x := by
    intro x hx
    have := hmono 0 x (le_refl _) hx
    rwa [h0] at this
  have hc : 0 ≤ rnd (33 / 10) := hnn _ (by norm_num)
  have hrawQ : (raw : ℚ) ≤ 65535 := by exact_mod_cast hraw
  have hq0 : (0 : ℚ) ≤ (raw : ℚ) / 65535 := by positivity
  have hn0 : 0 ≤ rnd ((raw : ℚ) / 65535) := hnn _ hq0
  have hn1 : rnd ((raw : ℚ) / 65535) ≤ 1 := by
    have := hmono _ 1 hq0 (show (raw : ℚ) / 65535 ≤ 1 by
      rw [div_le_one (by norm_num)]; exact hrawQ)
    rwa [h1] at this
  have hv0 : 0 ≤ sampleVoltage rnd raw := hnn _ (mul_nonneg hn0 hc)
  have hv1 : sampleVoltage rnd raw ≤ rnd (33 / 10) := by
    have := hmono _ _ (mul_nonneg hn0 hc) (mul_le_of_le_one_left hc hn1)
    rwa [hidem] at this
  have hm0 : (0 : ℚ) ≤ sampleVoltage rnd raw * 1000 := mul_nonneg hv0 (by norm_num)
  have hw0 : 0 ≤ rnd (sampleVoltage rnd raw * 1000) := hnn _ hm0
  have hw1 : rnd (sampleVoltage rnd raw * 1000) < 3301 :=
    lt_of_le_of_lt (hmono _ _ hm0 (mul_le_mul_of_nonneg_right hv1 (by norm_num))) htop
  unfold sampleVoltageValue voltageValueOf truncToInt
  rw [if_pos hw0]
  constructor
  · exact Int.floor_nonneg.mpr hw0
  · have : ⌊rnd (sampleVoltage rnd raw * 1000)⌋ < 3301 := by
      rw [Int.floor_lt]; exact_mod_cast hw1
    omega

/-- The range of the converted value in binary32 arithmetic. -/
theorem sampleVoltageValue_binary32_range (raw : Nat) (hraw : raw ≤ 65535) :
    0 ≤ sampleVoltageValue roundBinary32 raw ∧ sampleVoltageValue roundBinary32 raw ≤ 3300 := by
  apply sampleVoltageValue_range roundBinary32 (fun x y hx hxy => roundBinary32_mono hx hxy)
    roundBinary32_zero roundBinary32_one _ _ raw hraw
  · rw [roundBinary32_const, roundBinary32_const_idem]
  · rw [roundBinary32_const, roundBinary32_top]; norm_num

/-- In binary32 arithmetic the normalized sample 0.5 is converted to 1650. -/
theorem voltageValueOf_binary32_half :
    voltageValueOf roundBinary32 (voltageOfNormalized roundBinary32 (1 / 2)) = 1650 := by
  unfold voltageValueOf voltageOfNormalized
  rw [roundBinary32_const, roundBinary32_half_volt, roundBinary32_half_value]
  unfold truncToInt
  norm_num

/-- In binary32 arithmetic the 16-bit sample 32768 is converted to 1650. -/
theorem sampleVoltageValue_binary32_32768 : sampleVoltageValue roundBinary32 32768 = 1650 := by
  have hn : roundBinary32 (((32768 : Nat) : ℚ) / 65535) = 65537 / 131072 := by
    rw [roundBinary32_eval (-1) 8388736] <;> norm_num
  have hv : roundBinary32 (65537 / 131072 * (13841203 / 4194304)) = 6920707 / 4194304 := by
    rw [roundBinary32_eval 0 13841414] <;> norm_num
  have hw : roundBinary32 (6920707 / 4194304 * 1000) = 6758503 / 4096 := by
    rw [roundBinary32_eval 10 13517006] <;> norm_num
  unfold sampleVoltageValue voltageValueOf sampleVoltage voltageOfNormalized
  rw [roundBinary32_const, hn, hv, hw]
  unfold truncToInt
  rw [if_pos (by norm_num)]
  rw [Int.floor_eq_iff]
  constructor <;> norm_num

/-- No 16-bit sample is exactly half of full scale; in exact arithmetic the two
samples next to it are converted to 1649 and to 1650. -/
theorem sampleVoltageValue_around_half :
    (∀ raw : Nat, (raw : ℚ) / 65535 ≠ 1 / 2) ∧
    sampleVoltageValue id 32767 = 1649 ∧ sampleVoltageValue id 32768 = 1650 := by
  refine ⟨?_, ?_, ?_⟩
  · intro raw h
    rw [div_eq_iff (by norm_num)] at h
    have h2 : ((2 * raw : Nat) : ℚ) = ((65535 : Nat) : ℚ) := by
      push_cast; linarith
    have h3 : 2 * raw = 65535 := by exact_mod_cast h2
    omega
  · rw [sampleVoltageValue_exact]; norm_num
  · rw [sampleVoltageValue_exact]; norm_num

/-- Any number of ticks keeps the clock within its bounds. -/
theorem updateTime_iterate_inBounds (st : ClockState) (h : st.InBounds) (n : Nat) :
    (updateTime^[n] st).InBounds := by
  induction n with
  | zero => exact h
  | succ k ih =>
    rw [Function.iterate_succ_apply']
    exact updateTime_inBounds _ ih

/-- The segment byte of a digit below 10, as a table lookup. -/
theorem encode_nat (d : Nat) (hd : d < 10) (point : Bool) :
    encode (d : Int) point
      = some (if point then
          [0xC0, 0xF9, 0xA4, 0xB0, 0x99, 0x92, 0x82, 0xF8, 0x80, 0x90].getD d 0 % 128
        else [0xC0, 0xF9, 0xA4, 0xB0, 0x99, 0x92, 0x82, 0xF8, 0x80, 0x90].getD d 0) := by
  have tbl : digitPattern = [0xC0, 0xF9, 0xA4, 0xB0, 0x99, 0x92, 0x82, 0xF8, 0x80, 0x90] := by
    decide
  interval_cases d <;> cases point <;>
    simp only [encode, digitPatternAt, tbl, clearDecimalPointBit_eq_mod] <;> rfl

/-- A pass of the main loop is its reset check followed by one `displayNumber` call. -/
theorem mainLoopIteration_eq (st : ClockState) (s1 s3 : Bool) (voltageValue : Int) :
    mainLoopIteration st s1 s3 voltageValue
      = (displayNumber
          (if s3 then (resetCheck st s1).1.minutes * 100 + (resetCheck st s1).1.seconds
            else voltageValue)
          true (if s3 then 1 else 0)).map
        fun t => ((resetCheck st s1).1, (resetCheck st s1).2 ++ t) := by
  cases s3 <;> rfl

/-- The rendering of a pass completes when the clock is within its bounds and the
voltage value is not negative. -/
theorem renderPass_completes (st : ClockState) (hst : st.InBounds) (s3 : Bool)
    (voltageValue : Int) (hv : 0 ≤ voltageValue) :
    ∃ trace, renderPass st s3 voltageValue = some trace := by
  obtain ⟨h1, h2, h3, h4⟩ := hst
  cases s3
  · obtain ⟨_, _, _, _, -, -, -, -, -, -, -, -, -, htrace⟩ :=
      displayNumber_nonneg voltageValue hv true 0
    exact ⟨_, htrace⟩
  · obtain ⟨_, _, _, _, -, -, -, -, -, -, -, -, -, htrace⟩ :=
      displayNumber_nonneg (st.minutes * 100 + st.seconds) (by omega) true 1
    exact ⟨_, htrace⟩

/-! ## SegmentEncoder -/

/-- C1: for every digit `d` in 0..9 the byte used without the decimal point is the
table entry `digitPattern[d]`, it is the 8-bit complement of the canonical
common-cathode code of `d`, i.e. the `d`-th of 0xC0, 0xF9, 0xA4, 0xB0, 0x99, 0x92,
0x82, 0xF8, 0x80, 0x90; and the byte used with the decimal point is that value with
bit 7 cleared and every other bit unchanged. -/
theorem encode_complement_of_canonical (d : Nat) (hd : d < 10) :
    ∃ c p q, canonicalCathode.get? d = some c ∧ digitPattern.get? d = some p ∧
      encode (d : Int) false = some p ∧ encode (d : Int) true = some q ∧
      p = complement8 c ∧
      [0xC0, 0xF9, 0xA4, 0xB0, 0x99, 0x92, 0x82, 0xF8, 0x80, 0x90].get? d = some p ∧
      q.testBit 7 = false ∧ (∀ j, j ≠ 7 → q.testBit j = p.testBit j) := by
  have key : ∀ p : Nat, p < 256 →
      (p % 128).testBit 7 = false ∧ ∀ j, j ≠ 7 → (p % 128).testBit j = p.testBit j := by
    intro p hp
    have e128 : (128 : Nat) = 2 ^ 7 := by norm_num
    have e256 : (256 : Nat) = 2 ^ 8 := by norm_num
    constructor
    · rw [e128, Nat.testBit_mod_two_pow]; simp
    · intro j hj
      rw [e128, Nat.testBit_mod_two_pow]
      by_cases h7 : j < 7
      · simp [h7]
      · have h8 : 8 ≤ j := by omega
        have hlt : p < 2 ^ j :=
          lt_of_lt_of_le (e256 ▸ hp) (Nat.pow_le_pow_right (by norm_num) h8)
        simp [h7, Nat.testBit_lt_two_pow hlt]
  have tbl : digitPattern = [0xC0, 0xF9, 0xA4, 0xB0, 0x99, 0x92, 0x82, 0xF8, 0x80, 0x90] := by
    decide
  interval_cases d <;>
    (simp only [encode, digitPatternAt, tbl, canonicalCathode, complement8,
        clearDecimalPointBit_eq_mod]
     refine ⟨_, _, _, rfl, rfl, rfl, rfl, by decide, rfl, ?_⟩
     exact key _ (by decide))

/-- Instance of C1 at the digit 2: 0xA4 without the point, 0x24 with it. -/
theorem encode_complement_of_canonical_witness :
    ∃ c p q, canonicalCathode.get? 2 = some c ∧ digitPattern.get? 2 = some p ∧
      encode ((2 : Nat) : Int) false = some p ∧ encode ((2 : Nat) : Int) true = some q ∧
      p = complement8 c ∧
      [0xC0, 0xF9, 0xA4, 0xB0, 0x99, 0x92, 0x82, 0xF8, 0x80, 0x90].get? 2 = some p ∧
      q.testBit 7 = false ∧ (∀ j, j ≠ 7 → q.testBit j = p.testBit j) :=
  encode_complement_of_canonical 2 (by decide)

/-! ## Digit decomposition -/

/-- C2: for every `v ≥ 0` the four digits computed by `displayNumber` recompose, as
`1000*d0 + 100*d1 + 10*d2 + d3`, to `v mod 10000`; for `v = 12345` the digits are
2, 3, 4, 5, that is 2345. -/
theorem digitsOf_truncation (v : Int) (hv : 0 ≤ v) :
    (∃ d0 d1 d2 d3, digitsOf v = [d0, d1, d2, d3] ∧
      1000 * d0 + 100 * d1 + 10 * d2 + d3 = v % 10000) ∧
    digitsOf 12345 = [2, 3, 4, 5] := by
  refine ⟨⟨_, _, _, _, rfl, ?_⟩, by decide⟩
  have h1 : v.tdiv 1000 = v / 1000 := Int.tdiv_eq_ediv hv (by norm_num)
  have h2 : v.tdiv 100 = v / 100 := Int.tdiv_eq_ediv hv (by norm_num)
  have h3 : v.tdiv 10 = v / 10 := Int.tdiv_eq_ediv hv (by norm_num)
  rw [h1, h2, h3, Int.tmod_eq_emod (by omega) (by norm_num),
    Int.tmod_eq_emod (by omega) (by norm_num), Int.tmod_eq_emod (by omega) (by norm_num),
    Int.tmod_eq_emod hv (by norm_num)]
  omega

/-- Instance of C2 at `v = 12345`. -/
theorem digitsOf_truncation_witness :
    (∃ d0 d1 d2 d3, digitsOf 12345 = [d0, d1, d2, d3] ∧
      1000 * d0 + 100 * d1 + 10 * d2 + d3 = (12345 : Int) % 10000) ∧
    digitsOf 12345 = [2, 3, 4, 5] :=
  digitsOf_truncation 12345 (by decide)

/-! ## Clock -/

/-- C3: for every `m` in 0..99, sixty ticks from (minutes = m, seconds = 0) give
(minutes = (m + 1) mod 100, seconds = 0). -/
theorem updateTime_sixty_ticks (m : Int) (h0 : 0 ≤ m) (h99 : m ≤ 99) :
    updateTime^[60] { seconds := 0, minutes := m }
      = { seconds := 0, minutes := (m + 1) % 100 } := by
  rw [updateTime_iterate _ ⟨le_refl _, by norm_num, h0, h99⟩]
  simp only [ClockState.mk.injEq]
  constructor <;> push_cast <;> omega

/-- Instance of C3 at `m = 99`: the minutes wrap to 0. -/
theorem updateTime_sixty_ticks_witness :
    updateTime^[60] { seconds := 0, minutes := 99 } = { seconds := 0, minutes := 0 } :=
  updateTime_sixty_ticks 99 (by decide) (by decide)

/-- C4 as stated fails: 3600 ticks from (0,0) do not give (minutes = 1, seconds = 0). -/
theorem updateTime_3600_ticks_not_one_minute :
    updateTime^[3600] ClockState.init ≠ { seconds := 0, minutes := 1 } := by
  rw [updateTime_iterate _ (by decide)]
  decide

/-- C4 amended: 3600 ticks from (0,0) give (minutes = 60, seconds = 0). -/
theorem updateTime_3600_ticks :
    updateTime^[3600] ClockState.init = { seconds := 0, minutes := 60 } := by
  rw [updateTime_iterate _ (by decide)]
  decide

/-- C5: the bounds `0 ≤ seconds ≤ 59`, `0 ≤ minutes ≤ 99` hold initially, are kept by
every tick and by the reset check of the main loop (which, when the button is pressed,
gives (0,0) from any state), and so hold in every reachable state, also when a tick
falls between the two writes of the reset. -/
theorem clock_bounds_invariant :
    ClockState.init.InBounds ∧
    (∀ st : ClockState, st.InBounds → (updateTime st).InBounds) ∧
    (∀ st : ClockState, (resetCheck st false).1.InBounds) ∧
    (∀ (st : ClockState) (s1 : Bool), st.InBounds → (resetCheck st s1).1.InBounds) ∧
    (∀ st : ClockState, Reachable st → st.InBounds) := by
  have hzero : ClockState.InBounds { seconds := 0, minutes := 0 } := by decide
  have hreset : ∀ (st : ClockState) (s1 : Bool),
      st.InBounds → (resetCheck st s1).1.InBounds := by
    intro st s1 hb
    cases s1
    · exact hzero
    · exact hb
  refine ⟨by decide, updateTime_inBounds, fun _ => hzero, hreset, ?_⟩
  intro st hr
  induction hr with
  | init => decide
  | tick _ ih => exact updateTime_inBounds _ ih
  | loopPass s1 _ ih => exact hreset _ s1 ih
  | writeMinutes _ ih => exact ⟨ih.1, ih.2.1, le_refl _, by norm_num⟩
  | writeSeconds _ ih => exact ⟨le_refl _, by norm_num, ih.2.2.1, ih.2.2.2⟩

/-- Instance of C5: the tick from (minutes = 99, seconds = 59) stays within the bounds. -/
theorem clock_bounds_invariant_witness :
    (updateTime { seconds := 59, minutes := 99 }).InBounds :=
  clock_bounds_invariant.2.1 { seconds := 59, minutes := 99 } (by decide)

/-! ## ShiftRegisterBus -/

/-- C6: the trace of one `writeToShiftRegister` call is one latch-low write, then 16
groups of (data write, clock set to 1, clock set to 0), 8 for `segments` followed by
8 for `digit`, then one latch-high write; it has no other latch write and no other
clock write. -/
theorem writeToShiftRegister_framing (segments digit : Nat) :
    writeToShiftRegister segments digit
        = Event.write Pin.latchPin 0 ::
            (pulseTrain (msbFirstBits segments) ++ pulseTrain (msbFirstBits digit)
              ++ [Event.write Pin.latchPin 1]) ∧
    (msbFirstBits segments).length = 8 ∧ (msbFirstBits digit).length = 8 ∧
    (writeToShiftRegister segments digit).head? = some (Event.write Pin.latchPin 0) ∧
    (writeToShiftRegister segments digit).getLast? = some (Event.write Pin.latchPin 1) ∧
    (writeToShiftRegister segments digit).filter Event.isLatchWrite
        = [Event.write Pin.latchPin 0, Event.write Pin.latchPin 1] ∧
    (writeToShiftRegister segments digit).filter Event.isClockWrite
        = (List.replicate 16 [Event.write Pin.clockPin 1, Event.write Pin.clockPin 0]).flatten
    := by
  refine ⟨?_, rfl, rfl, rfl, rfl, rfl, rfl⟩
  unfold writeToShiftRegister
  rw [shiftOutMSBFirst_eq_pulseTrain, shiftOutMSBFirst_eq_pulseTrain]
  simp only [List.singleton_append, List.cons_append, List.append_assoc, List.nil_append]

/-- C7: starting with the clock line low, the data levels at the 16 rising clock edges
of one `writeToShiftRegister` call are bits 7..0 of `segments` followed by bits 7..0 of
`digit`; read as a big-endian number they give `segments * 256 + digit`, from which
both bytes are recovered. -/
theorem writeToShiftRegister_bit_order (segments digit data : Nat)
    (hs : segments < 256) (hd : digit < 256) :
    sampledBits 0 data (writeToShiftRegister segments digit)
        = msbFirstBits segments ++ msbFirstBits digit ∧
    (sampledBits 0 data (writeToShiftRegister segments digit)).length = 16 ∧
    ofBitsBE (sampledBits 0 data (writeToShiftRegister segments digit))
        = segments * 256 + digit ∧
    ofBitsBE (sampledBits 0 data (writeToShiftRegister segments digit)) / 256 = segments ∧
    ofBitsBE (sampledBits 0 data (writeToShiftRegister segments digit)) % 256 = digit := by
  have hbits : sampledBits 0 data (writeToShiftRegister segments digit)
      = msbFirstBits segments ++ msbFirstBits digit := by
    unfold writeToShiftRegister
    simp only [List.singleton_append, List.cons_append, List.append_assoc, List.nil_append]
    rw [sampledBits_latch, sampledBits_shiftOut, sampledBits_shiftOut, sampledBits_latch]
    simp only [sampledBits, List.append_nil]
  have hword : ofBitsBE (msbFirstBits segments ++ msbFirstBits digit)
      = segments * 256 + digit := by
    unfold ofBitsBE
    rw [List.foldl_append, foldl_msbFirstBits, foldl_msbFirstBits]
    omega
  rw [hbits, hword]
  refine ⟨rfl, rfl, rfl, ?_, ?_⟩ <;> omega

/-- Instance of C7 for the frame of the digit 2 at position 1. -/
theorem writeToShiftRegister_bit_order_witness :
    sampledBits 0 0 (writeToShiftRegister 0xA4 0x02)
        = msbFirstBits 0xA4 ++ msbFirstBits 0x02 ∧
    (sampledBits 0 0 (writeToShiftRegister 0xA4 0x02)).length = 16 ∧
    ofBitsBE (sampledBits 0 0 (writeToShiftRegister 0xA4 0x02)) = 0xA4 * 256 + 0x02 ∧
    ofBitsBE (sampledBits 0 0 (writeToShiftRegister 0xA4 0x02)) / 256 = 0xA4 ∧
    ofBitsBE (sampledBits 0 0 (writeToShiftRegister 0xA4 0x02)) % 256 = 0x02 :=
  writeToShiftRegister_bit_order 0xA4 0x02 0 (by decide) (by decide)

/-! ## DisplayMultiplexer -/

/-- C8: for every `v ≥ 0` and every `(showDecimalPoint, decimalPosition)`, one
`displayNumber` call emits exactly four `writeToShiftRegister` frames, for
`i = 0, 1, 2, 3` in this order; the `i`-th carries the mask `digitPos[i]`
(0x01, 0x02, 0x04, 0x08) and the segment byte of the `i`-th decimal digit of
`v mod 10000` (thousands first), and is followed by one 2 ms sleep; the sleeps of the
call total 8 ms. -/
theorem displayNumber_frame_sequence (v : Int) (hv : 0 ≤ v) (showDecimalPoint : Bool)
    (decimalPosition : Int) :
    ∃ (seg0 seg1 seg2 seg3 : Nat) (trace : List Event),
      encode (v % 10000 / 1000) (showDecimalPoint && decide ((0 : Int) = decimalPosition))
        = some seg0 ∧
      encode (v % 10000 / 100 % 10) (showDecimalPoint && decide ((1 : Int) = decimalPosition))
        = some seg1 ∧
      encode (v % 10000 / 10 % 10) (showDecimalPoint && decide ((2 : Int) = decimalPosition))
        = some seg2 ∧
      encode (v % 10000 % 10) (showDecimalPoint && decide ((3 : Int) = decimalPosition))
        = some seg3 ∧
      digitPos = [0x01, 0x02, 0x04, 0x08] ∧
      displayNumber v showDecimalPoint decimalPosition = some trace ∧
      trace = writeToShiftRegister seg0 0x01 ++ [Event.sleep 2]
            ++ (writeToShiftRegister seg1 0x02 ++ [Event.sleep 2]
            ++ (writeToShiftRegister seg2 0x04 ++ [Event.sleep 2]
            ++ (writeToShiftRegister seg3 0x08 ++ [Event.sleep 2]))) ∧
      latchedFrames Bus.idle trace
        = [(seg0, 0x01), (seg1, 0x02), (seg2, 0x04), (seg3, 0x08)] ∧
      totalSleep trace = 8 := by
  obtain ⟨seg0, seg1, seg2, seg3, e0, e1, e2, e3, hb, -, -, -, -, htrace⟩ :=
    displayNumber_nonneg v hv showDecimalPoint decimalPosition
  refine ⟨seg0, seg1, seg2, seg3, _, e0, e1, e2, e3, rfl, htrace, rfl, ?_, ?_⟩
  · exact latchedFrames_four Bus.idle rfl _ _ _ _ _ _ _ _ hb (by decide)
  · simp only [totalSleep_append, totalSleep_writeToShiftRegister, totalSleep]

/-- Instance of C8 at `v = 12345` with the point at position 1: the frames carry the
digits 2, 3, 4, 5. -/
theorem displayNumber_frame_sequence_witness :
    ∃ (seg0 seg1 seg2 seg3 : Nat) (trace : List Event),
      encode ((12345 : Int) % 10000 / 1000) (true && decide ((0 : Int) = 1)) = some seg0 ∧
      encode ((12345 : Int) % 10000 / 100 % 10) (true && decide ((1 : Int) = 1))
        = some seg1 ∧
      encode ((12345 : Int) % 10000 / 10 % 10) (true && decide ((2 : Int) = 1))
        = some seg2 ∧
      encode ((12345 : Int) % 10000 % 10) (true && decide ((3 : Int) = 1)) = some seg3 ∧
      digitPos = [0x01, 0x02, 0x04, 0x08] ∧
      displayNumber 12345 true 1 = some trace ∧
      trace = writeToShiftRegister seg0 0x01 ++ [Event.sleep 2]
            ++ (writeToShiftRegister seg1 0x02 ++ [Event.sleep 2]
            ++ (writeToShiftRegister seg2 0x04 ++ [Event.sleep 2]
            ++ (writeToShiftRegister seg3 0x08 ++ [Event.sleep 2]))) ∧
      latchedFrames Bus.idle trace
        = [(seg0, 0x01), (seg1, 0x02), (seg2, 0x04), (seg3, 0x08)] ∧
      totalSleep trace = 8 :=
  displayNumber_frame_sequence 12345 (by decide) true 1

/-- C9: for every `v ≥ 0`, played on a bus whose clock line is low, one `displayNumber`
call latches four frames, and the segment byte of position `i` has bit 7 clear (point
lit) exactly when `showDecimalPoint` holds and `i = decimalPosition`.  So when
`showDecimalPoint` is false or `decimalPosition` is outside 0..3 all four bytes have
bit 7 set (and the four frames are still sent), and otherwise exactly one byte has
bit 7 clear. -/
theorem displayNumber_decimal_point (v : Int) (hv : 0 ≤ v) (showDecimalPoint : Bool)
    (decimalPosition : Int) (b : Bus) (hc : b.clock = 0) :
    ∃ (seg0 seg1 seg2 seg3 : Nat) (trace : List Event),
      displayNumber v showDecimalPoint decimalPosition = some trace ∧
      latchedFrames b trace = [(seg0, 0x01), (seg1, 0x02), (seg2, 0x04), (seg3, 0x08)] ∧
      (∀ i : Nat, i < 4 →
        (([seg0, seg1, seg2, seg3].getD i 0).testBit 7 = false
          ↔ (showDecimalPoint = true ∧ (i : Int) = decimalPosition))) ∧
      ((showDecimalPoint = false ∨ decimalPosition < 0 ∨ 3 < decimalPosition) →
        ∀ seg ∈ [seg0, seg1, seg2, seg3], seg.testBit 7 = true) ∧
      ((showDecimalPoint = true ∧ 0 ≤ decimalPosition ∧ decimalPosition ≤ 3) →
        ([seg0, seg1, seg2, seg3].filter fun seg => !seg.testBit 7).length = 1) := by
  obtain ⟨seg0, seg1, seg2, seg3, -, -, -, -, hb, t0, t1, t2, t3, htrace⟩ :=
    displayNumber_nonneg v hv showDecimalPoint decimalPosition
  refine ⟨seg0, seg1, seg2, seg3, _, htrace,
    latchedFrames_four b hc _ _ _ _ _ _ _ _ hb (by decide), ?_, ?_, ?_⟩
  · intro i hi
    interval_cases i
    · show seg0.testBit 7 = false ↔ _
      rw [t0]
      cases showDecimalPoint <;> by_cases hp : (0 : Int) = decimalPosition <;> simp [hp]
    · show seg1.testBit 7 = false ↔ _
      rw [t1]
      cases showDecimalPoint <;> by_cases hp : (1 : Int) = decimalPosition <;> simp [hp]
    · show seg2.testBit 7 = false ↔ _
      rw [t2]
      cases showDecimalPoint <;> by_cases hp : (2 : Int) = decimalPosition <;> simp [hp]
    · show seg3.testBit 7 = false ↔ _
      rw [t3]
      cases showDecimalPoint <;> by_cases hp : (3 : Int) = decimalPosition <;> simp [hp]
  · intro h seg hseg
    have n0 : showDecimalPoint = false ∨ ¬ (0 : Int) = decimalPosition := by
      rcases h with h | h | h
      · exact Or.inl h
      · exact Or.inr (by omega)
      · exact Or.inr (by omega)
    have n1 : showDecimalPoint = false ∨ ¬ (1 : Int) = decimalPosition := by
      rcases h with h | h | h
      · exact Or.inl h
      · exact Or.inr (by omega)
      · exact Or.inr (by omega)
    have n2 : showDecimalPoint = false ∨ ¬ (2 : Int) = decimalPosition := by
      rcases h with h | h | h
      · exact Or.inl h
      · exact Or.inr (by omega)
      · exact Or.inr (by omega)
    have n3 : showDecimalPoint = false ∨ ¬ (3 : Int) = decimalPosition := by
      rcases h with h | h | h
      · exact Or.inl h
      · exact Or.inr (by omega)
      · exact Or.inr (by omega)
    simp only [List.mem_cons, List.mem_singleton, List.mem_nil_iff, or_false] at hseg
    rcases hseg with rfl | rfl | rfl | rfl
    · rw [t0]; rcases n0 with h | h <;> simp [h]
    · rw [t1]; rcases n1 with h | h <;> simp [h]
    · rw [t2]; rcases n2 with h | h <;> simp [h]
    · rw [t3]; rcases n3 with h | h <;> simp [h]
  · rintro ⟨hshow, hlo, hhi⟩
    subst hshow
    interval_cases decimalPosition <;> simp [t0, t1, t2, t3]

/-- Instance of C9 at `v = 245`, point shown at position 1, idle bus. -/
theorem displayNumber_decimal_point_witness :
    ∃ (seg0 seg1 seg2 seg3 : Nat) (trace : List Event),
      displayNumber 245 true 1 = some trace ∧
      latchedFrames Bus.idle trace
        = [(seg0, 0x01), (seg1, 0x02), (seg2, 0x04), (seg3, 0x08)] ∧
      (∀ i : Nat, i < 4 →
        (([seg0, seg1, seg2, seg3].getD i 0).testBit 7 = false
          ↔ (true = true ∧ (i : Int) = 1))) ∧
      ((true = false ∨ (1 : Int) < 0 ∨ 3 < (1 : Int)) →
        ∀ seg ∈ [seg0, seg1, seg2, seg3], seg.testBit 7 = true) ∧
      ((true = true ∧ 0 ≤ (1 : Int) ∧ (1 : Int) ≤ 3) →
        ([seg0, seg1, seg2, seg3].filter fun seg => !seg.testBit 7).length = 1) :=
  displayNumber_decimal_point 245 (by decide) true 1 Bus.idle rfl

/-! ## Main loop, time mode -/

/-- C10: for every clock state within the bounds, the time branch of the main loop
(mode button not pressed) renders `minutes * 100 + seconds` with the decimal point at
position 1; the four digits are `minutes / 10`, `minutes % 10`, `seconds / 10`,
`seconds % 10`, the four latched frames carry their segment bytes, and only the byte
of position 1 has bit 7 clear.  For the clock state (2, 45) the rendered value is 245
and the digits are 0, 2, 4, 5. -/
theorem time_mode_layout (st : ClockState) (hst : st.InBounds) (voltageValue : Int)
    (b : Bus) (hc : b.clock = 0) :
    renderPass st true voltageValue
        = displayNumber (st.minutes * 100 + st.seconds) true 1 ∧
    digitsOf (st.minutes * 100 + st.seconds)
        = [st.minutes / 10, st.minutes % 10, st.seconds / 10, st.seconds % 10] ∧
    (∃ (seg0 seg1 seg2 seg3 : Nat) (trace : List Event),
      renderPass st true voltageValue = some trace ∧
      mainLoopIteration st true true voltageValue = some (st, trace) ∧
      encode (st.minutes / 10) false = some seg0 ∧
      encode (st.minutes % 10) true = some seg1 ∧
      encode (st.seconds / 10) false = some seg2 ∧
      encode (st.seconds % 10) false = some seg3 ∧
      latchedFrames b trace = [(seg0, 0x01), (seg1, 0x02), (seg2, 0x04), (seg3, 0x08)] ∧
      seg0.testBit 7 = true ∧ seg1.testBit 7 = false ∧
      seg2.testBit 7 = true ∧ seg3.testBit 7 = true) ∧
    renderPass { seconds := 45, minutes := 2 } true voltageValue = displayNumber 245 true 1 ∧
    digitsOf 245 = [0, 2, 4, 5] := by
  obtain ⟨h1, h2, h3, h4⟩ := hst
  have hv : 0 ≤ st.minutes * 100 + st.seconds := by omega
  have d0 : (st.minutes * 100 + st.seconds) % 10000 / 1000 = st.minutes / 10 := by omega
  have d1 : (st.minutes * 100 + st.seconds) % 10000 / 100 % 10 = st.minutes % 10 := by omega
  have d2 : (st.minutes * 100 + st.seconds) % 10000 / 10 % 10 = st.seconds / 10 := by omega
  have d3 : (st.minutes * 100 + st.seconds) % 10000 % 10 = st.seconds % 10 := by omega
  have c0 : (true && decide ((0 : Int) = 1)) = false := by decide
  have c1 : (true && decide ((1 : Int) = 1)) = true := by decide
  have c2 : (true && decide ((2 : Int) = 1)) = false := by decide
  have c3 : (true && decide ((3 : Int) = 1)) = false := by decide
  have hrender : renderPass st true voltageValue
      = displayNumber (st.minutes * 100 + st.seconds) true 1 := rfl
  refine ⟨hrender, ?_, ?_, rfl, by decide⟩
  · rw [digitsOf_nonneg _ hv, d0, d1, d2, d3]
  · obtain ⟨seg0, seg1, seg2, seg3, e0, e1, e2, e3, hb, t0, t1, t2, t3, htrace⟩ :=
      displayNumber_nonneg (st.minutes * 100 + st.seconds) hv true 1
    rw [d0, c0] at e0
    rw [d1, c1] at e1
    rw [d2, c2] at e2
    rw [d3, c3] at e3
    rw [c0] at t0
    rw [c1] at t1
    rw [c2] at t2
    rw [c3] at t3
    refine ⟨seg0, seg1, seg2, seg3, _, hrender.trans htrace, ?_, e0, e1, e2, e3,
      latchedFrames_four b hc _ _ _ _ _ _ _ _ hb (by decide), t0, t1, t2, t3⟩
    unfold mainLoopIteration
    rw [show resetCheck st true = (st, []) from rfl]
    simp only [hrender, htrace, Option.map_some', List.nil_append]

/-- Instance of C10 at the clock state (2, 45) on an idle bus. -/
theorem time_mode_layout_witness :
    renderPass { seconds := 45, minutes := 2 } true 0
        = displayNumber ((2 : Int) * 100 + 45) true 1 ∧
    digitsOf ((2 : Int) * 100 + 45) = [(2 : Int) / 10, (2 : Int) % 10, (45 : Int) / 10,
        (45 : Int) % 10] ∧
    (∃ (seg0 seg1 seg2 seg3 : Nat) (trace : List Event),
      renderPass { seconds := 45, minutes := 2 } true 0 = some trace ∧
      mainLoopIteration { seconds := 45, minutes := 2 } true true 0
        = some ({ seconds := 45, minutes := 2 }, trace) ∧
      encode ((2 : Int) / 10) false = some seg0 ∧
      encode ((2 : Int) % 10) true = some seg1 ∧
      encode ((45 : Int) / 10) false = some seg2 ∧
      encode ((45 : Int) % 10) false = some seg3 ∧
      latchedFrames Bus.idle trace
        = [(seg0, 0x01), (seg1, 0x02), (seg2, 0x04), (seg3, 0x08)] ∧
      seg0.testBit 7 = true ∧ seg1.testBit 7 = false ∧
      seg2.testBit 7 = true ∧ seg3.testBit 7 = true) ∧
    renderPass { seconds := 45, minutes := 2 } true 0 = displayNumber 245 true 1 ∧
    digitsOf 245 = [0, 2, 4, 5] :=
  time_mode_layout { seconds := 45, minutes := 2 } (by decide) 0 Bus.idle rfl

/-! ## Main loop, voltage mode -/

/-- C11: a normalized sample of 0.5 gives the voltage 1.65 and the integer 1650 in
exact arithmetic, and the integer 1650 in binary32 arithmetic as well (as does, in
both, the 16-bit sample 32768, the first one above half scale); the voltage branch
hands it to `displayNumber` with the point at position 0, the digits are 1, 6, 5, 0,
and of the four latched segment bytes only the one of position 0 has bit 7 clear. -/
theorem voltage_mode_half_scale (st : ClockState) (b : Bus) (hc : b.clock = 0) :
    voltageOfNormalized id (1 / 2) = 165 / 100 ∧
    voltageValueOf id (voltageOfNormalized id (1 / 2)) = 1650 ∧
    voltageValueOf roundBinary32 (voltageOfNormalized roundBinary32 (1 / 2)) = 1650 ∧
    sampleVoltageValue id 32768 = 1650 ∧
    sampleVoltageValue roundBinary32 32768 = 1650 ∧
    renderPass st false (voltageValueOf id (voltageOfNormalized id (1 / 2)))
        = displayNumber 1650 true 0 ∧
    digitsOf 1650 = [1, 6, 5, 0] ∧
    (∃ (seg0 seg1 seg2 seg3 : Nat) (trace : List Event),
      renderPass st false (voltageValueOf id (voltageOfNormalized id (1 / 2))) = some trace ∧
      encode 1 true = some seg0 ∧ encode 6 false = some seg1 ∧
      encode 5 false = some seg2 ∧ encode 0 false = some seg3 ∧
      latchedFrames b trace = [(seg0, 0x01), (seg1, 0x02), (seg2, 0x04), (seg3, 0x08)] ∧
      seg0.testBit 7 = false ∧ seg1.testBit 7 = true ∧
      seg2.testBit 7 = true ∧ seg3.testBit 7 = true) := by
  have hvolt : voltageOfNormalized id (1 / 2) = 165 / 100 := by
    simp only [voltageOfNormalized, id]; norm_num
  have hval : voltageValueOf id (voltageOfNormalized id (1 / 2)) = 1650 := by
    rw [hvolt]
    simp only [voltageValueOf, truncToInt, id]
    norm_num
  have hraw : sampleVoltageValue id 32768 = 1650 := by
    rw [sampleVoltageValue_exact]; norm_num
  have hrender : renderPass st false (voltageValueOf id (voltageOfNormalized id (1 / 2)))
      = displayNumber 1650 true 0 := by
    rw [hval]; rfl
  refine ⟨hvolt, hval, voltageValueOf_binary32_half, hraw, sampleVoltageValue_binary32_32768,
    hrender, by decide, ?_⟩
  obtain ⟨seg0, seg1, seg2, seg3, e0, e1, e2, e3, hb, t0, t1, t2, t3, htrace⟩ :=
    displayNumber_nonneg 1650 (by decide) true 0
  have d0 : (1650 : Int) % 10000 / 1000 = 1 := by decide
  have d1 : (1650 : Int) % 10000 / 100 % 10 = 6 := by decide
  have d2 : (1650 : Int) % 10000 / 10 % 10 = 5 := by decide
  have d3 : (1650 : Int) % 10000 % 10 = 0 := by decide
  have c0 : (true && decide ((0 : Int) = 0)) = true := by decide
  have c1 : (true && decide ((1 : Int) = 0)) = false := by decide
  have c2 : (true && decide ((2 : Int) = 0)) = false := by decide
  have c3 : (true && decide ((3 : Int) = 0)) = false := by decide
  rw [d0, c0] at e0
  rw [d1, c1] at e1
  rw [d2, c2] at e2
  rw [d3, c3] at e3
  rw [c0] at t0
  rw [c1] at t1
  rw [c2] at t2
  rw [c3] at t3
  exact ⟨seg0, seg1, seg2, seg3, _, hrender.trans htrace, e0, e1, e2, e3,
    latchedFrames_four b hc _ _ _ _ _ _ _ _ hb (by decide), t0, t1, t2, t3⟩

/-- Instance of C11 on an idle bus, from the initial clock state. -/
theorem voltage_mode_half_scale_witness :
    voltageOfNormalized id (1 / 2) = 165 / 100 ∧
    voltageValueOf id (voltageOfNormalized id (1 / 2)) = 1650 ∧
    voltageValueOf roundBinary32 (voltageOfNormalized roundBinary32 (1 / 2)) = 1650 ∧
    sampleVoltageValue id 32768 = 1650 ∧
    sampleVoltageValue roundBinary32 32768 = 1650 ∧
    renderPass ClockState.init false (voltageValueOf id (voltageOfNormalized id (1 / 2)))
        = displayNumber 1650 true 0 ∧
    digitsOf 1650 = [1, 6, 5, 0] ∧
    (∃ (seg0 seg1 seg2 seg3 : Nat) (trace : List Event),
      renderPass ClockState.init false (voltageValueOf id (voltageOfNormalized id (1 / 2)))
        = some trace ∧
      encode 1 true = some seg0 ∧ encode 6 false = some seg1 ∧
      encode 5 false = some seg2 ∧ encode 0 false = some seg3 ∧
      latchedFrames Bus.idle trace
        = [(seg0, 0x01), (seg1, 0x02), (seg2, 0x04), (seg3, 0x08)] ∧
      seg0.testBit 7 = false ∧ seg1.testBit 7 = true ∧
      seg2.testBit 7 = true ∧ seg3.testBit 7 = true) :=
  voltage_mode_half_scale ClockState.init Bus.idle rfl

/-- C12: for every clock state within the bounds and every 16-bit sample, the time
value `minutes * 100 + seconds` lies in 0..9959 and the voltage value lies in 0..3300,
in exact rational arithmetic and also in binary32 arithmetic; so the integer a pass of
the main loop hands to `displayNumber` lies in 0..9999 and equals its own remainder
modulo 10000. -/
theorem rendered_value_range (st : ClockState) (hst : st.InBounds) (raw : Nat)
    (hraw : raw ≤ 65535) (s1 s3 : Bool) :
    (0 ≤ st.minutes * 100 + st.seconds ∧ st.minutes * 100 + st.seconds ≤ 9959) ∧
    (0 ≤ sampleVoltageValue id raw ∧ sampleVoltageValue id raw ≤ 3300) ∧
    (0 ≤ sampleVoltageValue roundBinary32 raw ∧ sampleVoltageValue roundBinary32 raw ≤ 3300) ∧
    (∀ rnd : ℚ → ℚ, rnd = id ∨ rnd = roundBinary32 →
      ∃ v : Int, 0 ≤ v ∧ v ≤ 9999 ∧ v % 10000 = v ∧
        renderPass (resetCheck st s1).1 s3 (sampleVoltageValue rnd raw)
          = displayNumber v true (if s3 then 1 else 0)) := by
  have htime : ∀ c : ClockState, c.InBounds →
      0 ≤ c.minutes * 100 + c.seconds ∧ c.minutes * 100 + c.seconds ≤ 9959 := by
    intro c hb
    obtain ⟨h1, h2, h3, h4⟩ := hb
    constructor <;> omega
  have hvolt : 0 ≤ sampleVoltageValue id raw ∧ sampleVoltageValue id raw ≤ 3300 :=
    sampleVoltageValue_range id (fun _ _ _ h => h) rfl rfl rfl (by simp only [id]; norm_num)
      raw hraw
  have hvolt32 := sampleVoltageValue_binary32_range raw hraw
  have hreset : (resetCheck st s1).1.InBounds := by
    cases s1
    · exact (by decide : ClockState.InBounds { seconds := 0, minutes := 0 })
    · exact hst
  refine ⟨htime st hst, hvolt, hvolt32, ?_⟩
  intro rnd hrnd
  have hv : 0 ≤ sampleVoltageValue rnd raw ∧ sampleVoltageValue rnd raw ≤ 3300 := by
    rcases hrnd with rfl | rfl
    · exact hvolt
    · exact hvolt32
  cases s3
  · exact ⟨sampleVoltageValue rnd raw, hv.1, by omega, by omega, rfl⟩
  · have ht := htime _ hreset
    exact ⟨_, ht.1, by omega, by omega, rfl⟩

/-- Instance of C12 at the largest clock state and the largest sample. -/
theorem rendered_value_range_witness :
    (0 ≤ (99 : Int) * 100 + 59 ∧ (99 : Int) * 100 + 59 ≤ 9959) ∧
    (0 ≤ sampleVoltageValue id 65535 ∧ sampleVoltageValue id 65535 ≤ 3300) ∧
    (0 ≤ sampleVoltageValue roundBinary32 65535
      ∧ sampleVoltageValue roundBinary32 65535 ≤ 3300) ∧
    (∀ rnd : ℚ → ℚ, rnd = id ∨ rnd = roundBinary32 →
      ∃ v : Int, 0 ≤ v ∧ v ≤ 9999 ∧ v % 10000 = v ∧
        renderPass (resetCheck { seconds := 59, minutes := 99 } true).1 false
            (sampleVoltageValue rnd 65535)
          = displayNumber v true (if false then 1 else 0)) :=
  rendered_value_range { seconds := 59, minutes := 99 } (by decide) 65535 (by decide)
    true false

/-! ## Totality of the digit decomposition -/

/-- C13 as stated fails: for the `int` value -5 the last digit is -5, outside 0..9, and
the read `digitPattern[-5]` is outside the table. -/
theorem digitsOf_negative_out_of_range :
    digitsOf (-5) = [0, 0, 0, -5] ∧
    ¬ (∀ d ∈ digitsOf (-5), 0 ≤ d ∧ d ≤ 9) ∧
    digitPatternAt (-5) = none ∧
    displayNumber (-5) false 1 = none := by
  refine ⟨by decide, ?_, by decide, by decide⟩
  intro h
  have := h (-5) (by decide)
  omega

/-- C13 amended: for every non-negative `int` value passed to `displayNumber` each of
the four digits lies in 0..9, every read `digitPattern[digits[i]]` is within the
table, and the call completes. -/
theorem digitsOf_in_range (v : Int) (hv : 0 ≤ v) (showDecimalPoint : Bool)
    (decimalPosition : Int) :
    (digitsOf v).length = 4 ∧
    (∀ d ∈ digitsOf v, 0 ≤ d ∧ d ≤ 9 ∧ ∃ pattern, digitPatternAt d = some pattern) ∧
    (∃ trace, displayNumber v showDecimalPoint decimalPosition = some trace) := by
  have hlook : ∀ d : Int, 0 ≤ d → d ≤ 9 → ∃ pattern, digitPatternAt d = some pattern := by
    intro d h0 h9
    interval_cases d <;> exact ⟨_, rfl⟩
  refine ⟨rfl, ?_, ?_⟩
  · intro d hd
    rw [digitsOf_nonneg v hv] at hd
    simp only [List.mem_cons, List.mem_singleton, List.mem_nil_iff, or_false] at hd
    have h09 : 0 ≤ d ∧ d ≤ 9 := by
      rcases hd with rfl | rfl | rfl | rfl <;> constructor <;> omega
    exact ⟨h09.1, h09.2, hlook d h09.1 h09.2⟩
  · obtain ⟨_, _, _, _, -, -, -, -, -, -, -, -, -, htrace⟩ :=
      displayNumber_nonneg v hv showDecimalPoint decimalPosition
    exact ⟨_, htrace⟩

/-- Instance of the amended C13 at the largest time value, 9959. -/
theorem digitsOf_in_range_witness :
    (digitsOf 9959).length = 4 ∧
    (∀ d ∈ digitsOf 9959, 0 ≤ d ∧ d ≤ 9 ∧ ∃ pattern, digitPatternAt d = some pattern) ∧
    (∃ trace, displayNumber 9959 true 1 = some trace) :=
  digitsOf_in_range 9959 (by decide) true 1

/-! ## Digit-position masks -/

/-- C14: for every position `i` in 0..3, `digitPos[i]` is `1 << i` and has exactly one
bit set (bit `i`); two different positions have no bit in common; and the bitwise OR
of the four entries is 0x0F. -/
theorem digitPos_one_hot (i : Nat) (hi : i < 4) :
    digitPos.length = 4 ∧
    digitPos.get? i = some (1 <<< i) ∧
    (List.range 8).filter (fun k => (digitPos.getD i 0).testBit k) = [i] ∧
    (∀ j, j < 4 → i ≠ j → digitPos.getD i 0 &&& digitPos.getD j 0 = 0) ∧
    digitPos.foldl (fun acc m => acc ||| m) 0 = 0x0F := by
  interval_cases i <;> decide

/-- Instance of C14 at the rightmost position. -/
theorem digitPos_one_hot_witness :
    digitPos.length = 4 ∧
    digitPos.get? 3 = some (1 <<< 3) ∧
    (List.range 8).filter (fun k => (digitPos.getD 3 0).testBit k) = [3] ∧
    (∀ j, j < 4 → 3 ≠ j → digitPos.getD 3 0 &&& digitPos.getD j 0 = 0) ∧
    digitPos.foldl (fun acc m => acc ||| m) 0 = 0x0F :=
  digitPos_one_hot 3 (by decide)

/-! ## Reset -/

/-- C15: from every prior clock state, within the bounds or not, the reset of the
main loop (reset button pressed) leaves the clock at (0,0): this is the state after
the reset check, and the state after the whole pass, which completes for every
non-negative voltage value. -/
theorem reset_yields_zero (st : ClockState) (s3 : Bool) (voltageValue : Int)
    (hv : 0 ≤ voltageValue) :
    (resetCheck st false).1 = { seconds := 0, minutes := 0 } ∧
    (∃ trace, mainLoopIteration st false s3 voltageValue
      = some ({ seconds := 0, minutes := 0 }, trace)) ∧
    (∀ st1 trace, mainLoopIteration st false s3 voltageValue = some (st1, trace) →
      st1 = { seconds := 0, minutes := 0 }) := by
  refine ⟨rfl, ?_, ?_⟩
  · have hrender : ∃ t, renderPass { seconds := 0, minutes := 0 } s3 voltageValue = some t := by
      cases s3
      · obtain ⟨_, _, _, _, -, -, -, -, -, -, -, -, -, htrace⟩ :=
          displayNumber_nonneg voltageValue hv true 0
        exact ⟨_, htrace⟩
      · obtain ⟨_, _, _, _, -, -, -, -, -, -, -, -, -, htrace⟩ :=
          displayNumber_nonneg 0 (le_refl _) true 1
        exact ⟨_, htrace⟩
    obtain ⟨t, ht⟩ := hrender
    refine ⟨[Event.sleep 200] ++ t, ?_⟩
    unfold mainLoopIteration
    rw [show resetCheck st false = ({ seconds := 0, minutes := 0 }, [Event.sleep 200])
      from rfl]
    simp only [ht, Option.map_some']
  · intro st1 trace h
    exact mainLoopIteration_state _ _ _ _ _ _ h

/-- Instance of C15 from a state outside the bounds, (minutes = 250, seconds = -7). -/
theorem reset_yields_zero_witness :
    (resetCheck { seconds := -7, minutes := 250 } false).1
      = { seconds := 0, minutes := 0 } ∧
    (∃ trace, mainLoopIteration { seconds := -7, minutes := 250 } false true 0
      = some ({ seconds := 0, minutes := 0 }, trace)) ∧
    (∀ st1 trace,
      mainLoopIteration { seconds := -7, minutes := 250 } false true 0 = some (st1, trace) →
      st1 = { seconds := 0, minutes := 0 }) :=
  reset_yields_zero { seconds := -7, minutes := 250 } true 0 (by decide)

/-! ## Main loop, arbitration and frame condition -/

/-- C16: in one pass of the main loop with no tick in between, for every prior clock
state: (a) reset pressed and mode not pressed resets the clock, sleeps 200 ms and then
renders 0 with the point at position 1; (b) reset pressed and mode pressed resets the
clock, sleeps 200 ms and renders the voltage value with the point at position 0;
(c) in every case the trace of the pass is that of the reset check followed by that
of exactly one `displayNumber` call. -/
theorem main_loop_arbitration (st : ClockState) (voltageValue : Int)
    (hv : 0 ≤ voltageValue) :
    (∃ t, displayNumber 0 true 1 = some t ∧
      mainLoopIteration st false true voltageValue
        = some ({ seconds := 0, minutes := 0 }, Event.sleep 200 :: t)) ∧
    (∃ t, displayNumber voltageValue true 0 = some t ∧
      mainLoopIteration st false false voltageValue
        = some ({ seconds := 0, minutes := 0 }, Event.sleep 200 :: t)) ∧
    (∀ s1 s3 : Bool,
      mainLoopIteration st s1 s3 voltageValue
        = (displayNumber
            (if s3 then (resetCheck st s1).1.minutes * 100 + (resetCheck st s1).1.seconds
              else voltageValue)
            true (if s3 then 1 else 0)).map
          fun t => ((resetCheck st s1).1, (resetCheck st s1).2 ++ t)) := by
  refine ⟨?_, ?_, fun s1 s3 => mainLoopIteration_eq st s1 s3 voltageValue⟩
  · obtain ⟨_, _, _, _, -, -, -, -, -, -, -, -, -, htrace⟩ :=
      displayNumber_nonneg 0 (le_refl _) true 1
    refine ⟨_, htrace, ?_⟩
    rw [mainLoopIteration_eq]
    rw [show resetCheck st false = ({ seconds := 0, minutes := 0 }, [Event.sleep 200])
      from rfl]
    simp only [if_true, Int.zero_mul, Int.add_zero, htrace, Option.map_some',
      List.singleton_append]
  · obtain ⟨_, _, _, _, -, -, -, -, -, -, -, -, -, htrace⟩ :=
      displayNumber_nonneg voltageValue hv true 0
    refine ⟨_, htrace, ?_⟩
    rw [mainLoopIteration_eq]
    rw [show resetCheck st false = ({ seconds := 0, minutes := 0 }, [Event.sleep 200])
      from rfl]
    simp only [Bool.false_eq_true, if_false, htrace, Option.map_some',
      List.singleton_append]

/-- Instance of C16 from the clock state (12, 34) with the voltage value 1650. -/
theorem main_loop_arbitration_witness :
    (∃ t, displayNumber 0 true 1 = some t ∧
      mainLoopIteration { seconds := 34, minutes := 12 } false true 1650
        = some ({ seconds := 0, minutes := 0 }, Event.sleep 200 :: t)) ∧
    (∃ t, displayNumber 1650 true 0 = some t ∧
      mainLoopIteration { seconds := 34, minutes := 12 } false false 1650
        = some ({ seconds := 0, minutes := 0 }, Event.sleep 200 :: t)) ∧
    (∀ s1 s3 : Bool,
      mainLoopIteration { seconds := 34, minutes := 12 } s1 s3 1650
        = (displayNumber
            (if s3 then
              (resetCheck { seconds := 34, minutes := 12 } s1).1.minutes * 100
                + (resetCheck { seconds := 34, minutes := 12 } s1).1.seconds
              else 1650)
            true (if s3 then 1 else 0)).map
          fun t => ((resetCheck { seconds := 34, minutes := 12 } s1).1,
            (resetCheck { seconds := 34, minutes := 12 } s1).2 ++ t)) :=
  main_loop_arbitration { seconds := 34, minutes := 12 } 1650 (by decide)

/-- C17: a pass of the main loop with the reset button not pressed leaves the clock
state unchanged, whichever mode is selected and whatever the voltage value; it
completes when the clock is within its bounds and the value is not negative.  For any
buttons, the clock state after a pass is the one left by the reset check: the
rendering (`displayNumber`, `writeToShiftRegister`, `shiftOutMSBFirst`) does not
change it. -/
theorem main_loop_frame (st : ClockState) (s3 : Bool) (voltageValue : Int) :
    resetCheck st true = (st, []) ∧
    (∀ st1 trace, mainLoopIteration st true s3 voltageValue = some (st1, trace) →
      st1 = st) ∧
    (st.InBounds → 0 ≤ voltageValue →
      ∃ trace, mainLoopIteration st true s3 voltageValue = some (st, trace)) ∧
    (∀ (s1 : Bool) st1 trace,
      mainLoopIteration st s1 s3 voltageValue = some (st1, trace) →
      st1 = (resetCheck st s1).1) := by
  refine ⟨rfl, ?_, ?_, ?_⟩
  · intro st1 trace h
    exact mainLoopIteration_state _ _ _ _ _ _ h
  · intro hst hv
    obtain ⟨t, ht⟩ := renderPass_completes st hst s3 voltageValue hv
    refine ⟨t, ?_⟩
    unfold mainLoopIteration
    rw [show resetCheck st true = (st, []) from rfl]
    simp only [ht, Option.map_some', List.nil_append]
  · intro s1 st1 trace h
    exact mainLoopIteration_state _ _ _ _ _ _ h

/-- Instance of C17: from (12, 34), in voltage mode with the value 1650, the pass
completes and leaves the clock at (12, 34). -/
theorem main_loop_frame_witness :
    ∃ trace, mainLoopIteration { seconds := 34, minutes := 12 } true false 1650
      = some ({ seconds := 34, minutes := 12 }, trace) :=
  (main_loop_frame { seconds := 34, minutes := 12 } false 1650).2.2.1 (by decide)
    (by decide)

/-! ## Torn read of the clock -/

/-- C18: for every `m` in 0..99, from the clock state (m, 59) a tick between the read
of `minutes` and the read of `seconds` makes line 119 compute `m * 100 + 0`, which is
neither the time before the tick nor the time after it (and likewise when `seconds` is
read first).  With no tick between the two reads the value is that of the clock
state, the one the time branch renders; with `k` ticks between them, from a state within the bounds, the minutes shown
are those at the first read and the seconds shown those at the second read, `k` ticks
later (or the other way round). -/
theorem torn_time_read (m : Int) (h0 : 0 ≤ m) (h99 : m ≤ 99) :
    (timeValueWithTicks true { seconds := 59, minutes := m } 1 = m * 100 ∧
      timeValueWithTicks true { seconds := 59, minutes := m } 1 ≠ m * 100 + 59 ∧
      timeValueWithTicks true { seconds := 59, minutes := m } 1
        ≠ (updateTime { seconds := 59, minutes := m }).minutes * 100
          + (updateTime { seconds := 59, minutes := m }).seconds) ∧
    (timeValueWithTicks false { seconds := 59, minutes := m } 1 ≠ m * 100 + 59 ∧
      timeValueWithTicks false { seconds := 59, minutes := m } 1
        ≠ (updateTime { seconds := 59, minutes := m }).minutes * 100
          + (updateTime { seconds := 59, minutes := m }).seconds) ∧
    (∀ (minutesFirst : Bool) (st : ClockState) (voltageValue : Int),
      timeValueWithTicks minutesFirst st 0 = st.minutes * 100 + st.seconds ∧
      renderPass st true voltageValue
        = displayNumber (timeValueWithTicks minutesFirst st 0) true 1) ∧
    (∀ (st : ClockState) (k : Nat), st.InBounds →
      timeValueWithTicks true st k / 100 = st.minutes ∧
      timeValueWithTicks true st k % 100 = (updateTime^[k] st).seconds ∧
      timeValueWithTicks false st k / 100 = (updateTime^[k] st).minutes ∧
      timeValueWithTicks false st k % 100 = st.seconds) := by
  have htick : updateTime { seconds := 59, minutes := m }
      = { seconds := 0, minutes := (m + 1) % 100 } := by
    have h := updateTime_iterate { seconds := 59, minutes := m }
      ⟨by norm_num, by norm_num, h0, h99⟩ 1
    rw [Function.iterate_one] at h
    rw [h]
    simp only [ClockState.mk.injEq]
    constructor <;> push_cast <;> omega
  refine ⟨?_, ?_, ?_, ?_⟩
  · simp only [timeValueWithTicks, if_true, Function.iterate_one, htick]
    refine ⟨?_, ?_, ?_⟩ <;> omega
  · simp only [timeValueWithTicks, Bool.false_eq_true, if_false, Function.iterate_one,
      htick]
    refine ⟨?_, ?_⟩ <;> omega
  · intro minutesFirst st voltageValue
    cases minutesFirst <;> exact ⟨rfl, rfl⟩
  · intro st k hst
    have hk := updateTime_iterate_inBounds st hst k
    obtain ⟨a1, a2, a3, a4⟩ := hst
    obtain ⟨b1, b2, b3, b4⟩ := hk
    simp only [timeValueWithTicks, if_true, Bool.false_eq_true, if_false]
    refine ⟨?_, ?_, ?_, ?_⟩ <;> omega

/-- Instance of C18 at `m = 2`: from (2, 59) the torn value is 200, between 259 before
the tick and 300 after it. -/
theorem torn_time_read_witness :
    timeValueWithTicks true { seconds := 59, minutes := 2 } 1 = 2 * 100 ∧
    timeValueWithTicks true { seconds := 59, minutes := 2 } 1 ≠ 2 * 100 + 59 ∧
    timeValueWithTicks true { seconds := 59, minutes := 2 } 1
      ≠ (updateTime { seconds := 59, minutes := 2 }).minutes * 100
        + (updateTime { seconds := 59, minutes := 2 }).seconds :=
  (torn_time_read 2 (by decide) (by decide)).1

/-! ## Closed form of the clock -/

/-- C19: for every state (m, s) within the bounds and every `n`, `n` ticks give
(minutes = ((60*m + s + n) / 60) mod 100, seconds = (60*m + s + n) mod 60); so 6000
ticks return the state to itself, and the state after `n + 6000` ticks is the state
after `n` ticks. -/
theorem updateTime_closed_form (st : ClockState) (hst : st.InBounds) (n : Nat) :
    updateTime^[n] st =
      { seconds := (60 * st.minutes + st.seconds + n) % 60,
        minutes := (60 * st.minutes + st.seconds + n) / 60 % 100 } ∧
    updateTime^[6000] st = st ∧
    updateTime^[n + 6000] st = updateTime^[n] st := by
  have h6000 : updateTime^[6000] st = st := by
    rw [updateTime_iterate st hst]
    obtain ⟨h1, h2, h3, h4⟩ := hst
    cases st with
    | mk s m =>
      simp only [ClockState.mk.injEq] at *
      constructor <;> push_cast <;> omega
  refine ⟨updateTime_iterate st hst n, h6000, ?_⟩
  rw [Function.iterate_add_apply, h6000]

/-- Instance of C19: 61 ticks from (minutes = 99, seconds = 59) give (1, 0). -/
theorem updateTime_closed_form_witness :
    updateTime^[61] { seconds := 59, minutes := 99 } =
      { seconds := (60 * (99 : Int) + 59 + (61 : Nat)) % 60,
        minutes := (60 * (99 : Int) + 59 + (61 : Nat)) / 60 % 100 } ∧
    updateTime^[6000] { seconds := 59, minutes := 99 } = { seconds := 59, minutes := 99 } ∧
    updateTime^[61 + 6000] { seconds := 59, minutes := 99 }
      = updateTime^[61] { seconds := 59, minutes := 99 } :=
  updateTime_closed_form { seconds := 59, minutes := 99 } (by decide) 61

/-! ## Unambiguous segment patterns -/

/-- C20: for digits `d1`, `d2` in 0..9 and the same decimal-point flag, the segment
bytes are equal only if `d1 = d2`; every table entry has bit 7 set, so for every digit
the byte with the point differs from the byte without it. -/
theorem encode_injective (d1 d2 : Nat) (h1 : d1 < 10) (h2 : d2 < 10) (point : Bool) :
    (∃ seg, encode (d1 : Int) point = some seg) ∧
    (encode (d1 : Int) point = encode (d2 : Int) point → d1 = d2) ∧
    (∃ pattern, digitPattern.get? d1 = some pattern ∧ pattern.testBit 7 = true) ∧
    encode (d1 : Int) true ≠ encode (d1 : Int) false := by
  have hinj : ∀ a : Nat, a < 10 → ∀ c : Nat, c < 10 → ∀ p : Bool,
      (if p then
          [0xC0, 0xF9, 0xA4, 0xB0, 0x99, 0x92, 0x82, 0xF8, 0x80, 0x90].getD a 0 % 128
        else [0xC0, 0xF9, 0xA4, 0xB0, 0x99, 0x92, 0x82, 0xF8, 0x80, 0x90].getD a 0)
      = (if p then
          [0xC0, 0xF9, 0xA4, 0xB0, 0x99, 0x92, 0x82, 0xF8, 0x80, 0x90].getD c 0 % 128
        else [0xC0, 0xF9, 0xA4, 0xB0, 0x99, 0x92, 0x82, 0xF8, 0x80, 0x90].getD c 0)
      → a = c := by
    decide
  have hbit : ∀ a : Nat, a < 10 →
      ∃ pattern, digitPattern.get? a = some pattern ∧ pattern.testBit 7 = true := by
    intro a ha
    interval_cases a <;> exact ⟨_, rfl, by decide⟩
  have hdiff : ∀ a : Nat, a < 10 →
      [0xC0, 0xF9, 0xA4, 0xB0, 0x99, 0x92, 0x82, 0xF8, 0x80, 0x90].getD a 0 % 128
        ≠ [0xC0, 0xF9, 0xA4, 0xB0, 0x99, 0x92, 0x82, 0xF8, 0x80, 0x90].getD a 0 := by
    decide
  refine ⟨⟨_, encode_nat d1 h1 point⟩, ?_, hbit d1 h1, ?_⟩
  · rw [encode_nat d1 h1, encode_nat d2 h2]
    intro h
    exact hinj d1 h1 d2 h2 point (Option.some.inj h)
  · rw [encode_nat d1 h1, encode_nat d1 h1]
    intro h
    exact hdiff d1 h1 (by simpa using Option.some.inj h)

/-- Instance of C20 at the digits 3 and 8 with the point shown. -/
theorem encode_injective_witness :
    (∃ seg, encode ((3 : Nat) : Int) true = some seg) ∧
    (encode ((3 : Nat) : Int) true = encode ((8 : Nat) : Int) true → 3 = 8) ∧
    (∃ pattern, digitPattern.get? 3 = some pattern ∧ pattern.testBit 7 = true) ∧
    encode ((3 : Nat) : Int) true ≠ encode ((3 : Nat) : Int) false :=
  encode_injective 3 8 (by decide) (by decide) true

end SevenSeg
